import Mathlib

/-!
Verification of the data-lake connector core (Format-D / Delta reader-writer,
Format-I / Iceberg reader-writer) against its natural-language specification.

The Rust sources `src/connectors/data_lake/delta.rs` and
`src/connectors/data_lake/iceberg.rs` are shallowly embedded below.  Machine
integers (i64 versions, row counters, snapshot ids) are modelled as `Nat`:
they are never negative on any path relevant to the claims and never approach
overflow.  Asynchronous calls to the object store, the Delta log store and
the Iceberg catalog are modelled by an explicit environment record carrying
the commit log, the per-version snapshot file lists and the per-file parquet
row contents; rows themselves are an opaque type parameter `Row` (the
column-decoding helper `parquet_row_into_values_map` is a pure function of
the row, so equality of emitted decoded maps follows from equality of rows).
-/

namespace Pathway

/-- Event type of a change event (`DataEventType` in the engine). -/
inductive DataEventType where
  | Insert
  | Delete
deriving DecidableEq, Repr

/-- The reader-side error kind (`ReadError`), restricted to the constructors
that the two connector files can produce.  `Parquet` and `Io` stand for the
payload-carrying library errors; their payloads are irrelevant here. -/
inductive ReadError where
  | DeltaDeletionVectorsNotSupported
  | NoObjectsToRead
  | Parquet
  | Io
deriving DecidableEq, Repr

/-- Offset values (`OffsetValue`), restricted to the two variants used by the
data-lake readers. -/
inductive OffsetValue where
  | DeltaTablePosition (version : Nat) (rows_read_within_version : Nat)
      (last_fully_read_version : Option Nat)
  | IcebergSnapshot (snapshot_id : Nat)
deriving DecidableEq, Repr

/-- Results of `read()` (`ReadResult`).  `Data` carries the decoded row and
the offset emitted under `OffsetKey::Empty`; `NewSource` carries the Iceberg
snapshot metadata, which for this connector is the snapshot id. -/
inductive ReadResult (Row : Type) where
  | Data (event : DataEventType) (row : Row) (offset : OffsetValue)
  | Finished
  | NewSource (snapshot_id : Nat)
  | FinishedSource (commit_allowed : Bool)
deriving DecidableEq, Repr

/-- A Delta commit action (`deltalake::kernel::Action`), restricted to the
fields the reader looks at.  The deletion vector is modelled by its
presence (`Option Unit`).  `Other` stands for all other action kinds
(metadata, protocol, txn, ...), which the reader ignores. -/
inductive DeltaLakeAction where
  | Remove (path : String) (data_change : Bool) (deletion_vector : Option Unit)
  | Add (path : String) (data_change : Bool)
  | Other
deriving DecidableEq, Repr

/-- `DeltaReaderAction`: a pending parquet file together with the event type
its rows will be emitted as. -/
structure DeltaReaderAction where
  action_type : DataEventType
  path : String
deriving DecidableEq, Repr

/-- The world a `DeltaTableReader` interacts with: the reader's immutable
`base_path`, the table's commit log (commit `v` has actions `commits.getD v []`
and exists iff `v < commits.length`; `peek_next_commit v` returns commit
`v + 1` when it exists and `UpToDate` otherwise), the snapshot file list
served by `table.snapshot().file_actions()` after `load_version v` (relative
paths), and the parquet rows of each file by absolute path (served
identically by the object downloader and by `rows_in_file_count`). -/
structure DeltaEnv (Row : Type) where
  base_path : String
  commits : List (List DeltaLakeAction)
  snapshotFiles : Nat → List String
  fileRows : String → List Row

/-- The mutable state of `DeltaTableReader`.  `reader` holds the remaining
rows of the currently open parquet row iterator. -/
structure DeltaTableReader (Row : Type) where
  reader : Option (List Row)
  current_version : Nat
  last_fully_read_version : Option Nat
  rows_read_within_version : Nat
  parquet_files_queue : List DeltaReaderAction
  current_event_type : DataEventType
deriving DecidableEq, Repr

namespace DeltaTableReader

variable {Row : Type}

/-- `DeltaTableReader::ensure_absolute_path_with_base`.  Rust's
`str::starts_with` / `str::ends_with` are expressed on the character lists
underlying the strings (`List.isPrefixOf`, last character), which is the
same predicate in a kernel-reducible form. -/
def ensure_absolute_path_with_base (path base_path : String) : String :=
  if base_path.data.isPrefixOf path.data then path
  else if base_path.data.getLast? = some '/' then base_path ++ path
  else base_path ++ "/" ++ path

/-- `DeltaTableReader::get_reader_actions`: every file of the snapshot loaded
at `version`, as an `Insert` action with absolutized path. -/
def get_reader_actions (env : DeltaEnv Row) (version : Nat) : List DeltaReaderAction :=
  (env.snapshotFiles version).map
    (fun p => ⟨DataEventType.Insert, ensure_absolute_path_with_base p env.base_path⟩)

/-- `DeltaTableReader::new` opened when the table's latest version was
`table_version`: seeds the queue with the full snapshot as inserts. -/
def new (env : DeltaEnv Row) (table_version : Nat) : DeltaTableReader Row :=
  { reader := none
    current_version := table_version
    last_fully_read_version := none
    rows_read_within_version := 0
    parquet_files_queue := get_reader_actions env table_version
    current_event_type := DataEventType.Insert }

/-- The `for action in txn_actions` loop inside `upgrade_table_version`:
collects the enqueued blocks and the OR of the `data_change` flags, failing
on a `Remove` action that carries a deletion vector. -/
def collect_txn_actions (base_path : String) :
    List DeltaLakeAction → Except ReadError (List DeltaReaderAction × Bool)
  | [] => .ok ([], false)
  | .Remove path data_change deletion_vector :: rest =>
    if deletion_vector.isSome then .error .DeltaDeletionVectorsNotSupported
    else
      match collect_txn_actions base_path rest with
      | .error e => .error e
      | .ok (blocks, dc) =>
        .ok (⟨DataEventType.Delete, ensure_absolute_path_with_base path base_path⟩ :: blocks,
             data_change || dc)
  | .Add path data_change :: rest =>
    match collect_txn_actions base_path rest with
    | .error e => .error e
    | .ok (blocks, dc) =>
      .ok (⟨DataEventType.Insert, ensure_absolute_path_with_base path base_path⟩ :: blocks,
           data_change || dc)
  | .Other :: rest => collect_txn_actions base_path rest

/-- The `while self.parquet_files_queue.is_empty()` loop of
`upgrade_table_version` with polling disabled (on `PeekCommit::UpToDate` it
breaks).  On error the state reached so far is returned alongside the
error, mirroring the partial mutation of `self` before the early return. -/
def upgrade_loop (env : DeltaEnv Row) (s : DeltaTableReader Row) :
    DeltaTableReader Row × Option ReadError :=
  if s.parquet_files_queue.isEmpty then
    if h : s.current_version + 1 < env.commits.length then
      match collect_txn_actions env.base_path (env.commits.getD (s.current_version + 1) []) with
      | .error e => (s, some e)
      | .ok (added_blocks, data_changed) =>
        upgrade_loop env
          { s with
            last_fully_read_version := some s.current_version
            current_version := s.current_version + 1
            rows_read_within_version := 0
            parquet_files_queue := if data_changed then added_blocks else [] }
    else (s, none)
  else (s, none)
termination_by env.commits.length - s.current_version
decreasing_by simp; omega

/-- `DeltaTableReader::upgrade_table_version` (polling disabled): clears the
queue, then runs the peek loop. -/
def upgrade_table_version (env : DeltaEnv Row) (s : DeltaTableReader Row) :
    DeltaTableReader Row × Option ReadError :=
  upgrade_loop env { s with parquet_files_queue := [] }

/-- The file-popping part of the `read_next_row_native` loop, recursing on
the queue: with no open row iterator, pop entries (downloading each file and
opening a row iterator over it, which sets `current_event_type`) until a row
is produced or the queue is exhausted.  The state's queue field is written
back at every exit. -/
def pull_loop (env : DeltaEnv Row) (s : DeltaTableReader Row) :
    List DeltaReaderAction → Option Row × DeltaTableReader Row
  | [] => (none, { s with parquet_files_queue := [] })
  | next_action :: rest =>
    match env.fileRows next_action.path with
    | [] =>
      pull_loop env
        { s with current_event_type := next_action.action_type, reader := none } rest
    | r :: rs =>
      (some r,
       { s with current_event_type := next_action.action_type
                reader := some rs
                parquet_files_queue := rest })

/-- Entry point of the file-popping loop at the reader's own queue. -/
def pull_from_queue (env : DeltaEnv Row) (s : DeltaTableReader Row) :
    Option Row × DeltaTableReader Row :=
  pull_loop env s s.parquet_files_queue

lemma pull_loop_preserves (env : DeltaEnv Row) (q : List DeltaReaderAction)
    (s : DeltaTableReader Row) :
    (pull_loop env s q).2.current_version = s.current_version ∧
    (pull_loop env s q).2.rows_read_within_version = s.rows_read_within_version ∧
    (pull_loop env s q).2.last_fully_read_version = s.last_fully_read_version := by
  induction q generalizing s with
  | nil => simp [pull_loop]
  | cons a rest ih =>
    cases hr : env.fileRows a.path with
    | nil => simpa [pull_loop, hr] using ih _
    | cons r rs => simp [pull_loop, hr]

lemma pull_from_queue_preserves (env : DeltaEnv Row) (s : DeltaTableReader Row) :
    (pull_from_queue env s).2.current_version = s.current_version ∧
    (pull_from_queue env s).2.rows_read_within_version = s.rows_read_within_version ∧
    (pull_from_queue env s).2.last_fully_read_version = s.last_fully_read_version :=
  pull_loop_preserves env s.parquet_files_queue s

lemma upgrade_loop_version_le (env : DeltaEnv Row) (s : DeltaTableReader Row) :
    s.current_version ≤ (upgrade_loop env s).1.current_version := by
  induction s using upgrade_loop.induct env with
  | case1 s hemp h e hcol =>
    rw [upgrade_loop, if_pos hemp, dif_pos h, hcol]
  | case2 s hemp h blocks dc hcol ih =>
    rw [upgrade_loop, if_pos hemp, dif_pos h, hcol]
    refine le_trans ?_ ih
    simp
  | case3 s hemp h => rw [upgrade_loop, if_pos hemp, dif_neg h]
  | case4 s hemp => rw [upgrade_loop, if_neg hemp]

lemma upgrade_loop_queue_ne (env : DeltaEnv Row) (s : DeltaTableReader Row)
    (h : s.parquet_files_queue ≠ []) : upgrade_loop env s = (s, none) := by
  rw [upgrade_loop, if_neg (by simpa [List.isEmpty_iff] using h)]

/-- If the peek loop was entered with an empty queue and exits with a
non-empty queue, it has strictly advanced `current_version` (and the gap to
the end of the commit log has strictly shrunk). -/
lemma upgrade_loop_gap (env : DeltaEnv Row) (s : DeltaTableReader Row) :
    s.parquet_files_queue = [] →
    (upgrade_loop env s).1.parquet_files_queue ≠ [] →
    env.commits.length - (upgrade_loop env s).1.current_version <
      env.commits.length - s.current_version := by
  induction s using upgrade_loop.induct env with
  | case1 s hemp h e hcol =>
    intro h1 h2
    rw [upgrade_loop, if_pos hemp, dif_pos h, hcol] at h2
    exact absurd h1 h2
  | case2 s hemp h blocks dc hcol ih =>
    intro h1 h2
    rw [upgrade_loop, if_pos hemp, dif_pos h, hcol] at h2 ⊢
    dsimp only at h2 ⊢
    simp only [dite_eq_ite] at ih
    by_cases hq : (if dc = true then blocks else []) = ([] : List DeltaReaderAction)
    · have := ih hq h2
      omega
    · rw [upgrade_loop_queue_ne env _ (by simpa using hq)]
      dsimp only
      omega
  | case3 s hemp h =>
    intro h1 h2
    rw [upgrade_loop, if_pos hemp, dif_neg h] at h2
    exact absurd h1 h2
  | case4 s hemp =>
    intro h1 h2
    rw [upgrade_loop, if_neg hemp] at h2
    exact absurd h1 h2

lemma upgrade_table_version_gap (env : DeltaEnv Row) (s : DeltaTableReader Row)
    (hne : (upgrade_table_version env s).1.parquet_files_queue ≠ []) :
    env.commits.length - (upgrade_table_version env s).1.current_version <
      env.commits.length - s.current_version := by
  have := upgrade_loop_gap env { s with parquet_files_queue := [] } rfl
    (by simpa [upgrade_table_version] using hne)
  simpa [upgrade_table_version] using this

/-- The `loop` of `read_next_row_native` from the point where no row
iterator is open: pull from the queue, and at exhaustion run Advance; if
Advance produces nothing, fail with the internal `NoObjectsToRead` sentinel. -/
def read_row_from_files (env : DeltaEnv Row) (s : DeltaTableReader Row) :
    DeltaTableReader Row × Except ReadError Row :=
  let pr := pull_from_queue env s
  match pr.1 with
  | some r => (pr.2, .ok r)
  | none =>
    let ur := upgrade_table_version env pr.2
    match ur.2 with
    | some e => (ur.1, .error e)
    | none =>
      if hq : ur.1.parquet_files_queue.isEmpty then (ur.1, .error .NoObjectsToRead)
      else read_row_from_files env ur.1
termination_by env.commits.length - s.current_version
decreasing_by
  have h1 := (pull_from_queue_preserves env s).1
  have h2 := upgrade_table_version_gap env (pull_from_queue env s).2
    (by simpa [List.isEmpty_iff] using hq)
  omega

/-- `DeltaTableReader::read_next_row_native` with polling disabled. -/
def read_next_row_native (env : DeltaEnv Row) (s : DeltaTableReader Row) :
    DeltaTableReader Row × Except ReadError Row :=
  match s.reader with
  | some (row :: rest) => ({ s with reader := some rest }, .ok row)
  | some [] => read_row_from_files env { s with reader := none }
  | none => read_row_from_files env s

/-- `Reader::read` for `DeltaTableReader` (non-polling mode): a fetched row
increments `rows_read_within_version` and is emitted with the current
position as offset; the internal `NoObjectsToRead` is translated to
`Finished`. -/
def read (env : DeltaEnv Row) (s : DeltaTableReader Row) :
    DeltaTableReader Row × Except ReadError (ReadResult Row) :=
  match read_next_row_native env s with
  | (s1, .ok parquet_row) =>
    let s2 := { s1 with rows_read_within_version := s1.rows_read_within_version + 1 }
    (s2, .ok (.Data s2.current_event_type parquet_row
      (.DeltaTablePosition s2.current_version s2.rows_read_within_version
        s2.last_fully_read_version)))
  | (s1, .error .NoObjectsToRead) => (s1, .ok .Finished)
  | (s1, .error e) => (s1, .error e)

/-- `DeltaTableReader::rows_in_file_count`: row count from the parquet
footer. -/
def rows_in_file_count (env : DeltaEnv Row) (path : String) : Nat :=
  (env.fileRows path).length

/-- The fast-skip loop of `seek`: discard whole head files while their row
counts fit under the rewind target, accumulating into
`rows_read_within_version`. -/
def fast_skip (env : DeltaEnv Row) (n_rows_to_rewind : Nat) :
    List DeltaReaderAction → Nat → List DeltaReaderAction × Nat
  | [], rows_read => ([], rows_read)
  | next_block :: rest, rows_read =>
    if rows_read + rows_in_file_count env next_block.path ≤ n_rows_to_rewind then
      fast_skip env n_rows_to_rewind rest (rows_read + rows_in_file_count env next_block.path)
    else (next_block :: rest, rows_read)

/-- The slow-skip loop of `seek`: pull (and discard) rows one by one through
`read_next_row_native` with polling disabled, propagating errors. -/
def slow_skip (env : DeltaEnv Row) :
    Nat → DeltaTableReader Row → DeltaTableReader Row × Option ReadError
  | 0, s => (s, none)
  | k + 1, s =>
    match read_next_row_native env s with
    | (s1, .ok _) => slow_skip env k s1
    | (s1, .error e) => (s1, some e)

/-- `Reader::seek` for `DeltaTableReader`.  A missing offset or an offset of
the wrong variant returns `Ok` leaving the state untouched; otherwise the
queue is rebuilt (via Advance from `last_fully_read_version`, or from the
full file list of `version`), and the offset's row count is fast- then
slow-skipped. -/
def seek (env : DeltaEnv Row) (s : DeltaTableReader Row) (frontier : Option OffsetValue) :
    DeltaTableReader Row × Option ReadError :=
  match frontier with
  | some (.DeltaTablePosition version n_rows_to_rewind last_fully_read_version) =>
    let s1 := { s with reader := none }
    let step2 : DeltaTableReader Row × Option ReadError :=
      match last_fully_read_version with
      | some v0 => upgrade_table_version env { s1 with current_version := v0 }
      | none =>
        ({ s1 with current_version := version
                   parquet_files_queue := get_reader_actions env version }, none)
    match step2.2 with
    | some e => (step2.1, some e)
    | none =>
      let s2 := step2.1
      let fsk := fast_skip env n_rows_to_rewind s2.parquet_files_queue 0
      let s3 := { s2 with parquet_files_queue := fsk.1, rows_read_within_version := fsk.2 }
      slow_skip env (n_rows_to_rewind - fsk.2) s3
  | some (.IcebergSnapshot _) => (s, none)
  | none => (s, none)

/-- Repeatedly call `read` collecting the emitted results, stopping at
`Finished` (the one-shot drain), at an error, or when out of fuel. -/
def run_drain (env : DeltaEnv Row) :
    Nat → DeltaTableReader Row →
      List (ReadResult Row) × DeltaTableReader Row × Option ReadError
  | 0, s => ([], s, none)
  | fuel + 1, s =>
    match read env s with
    | (s1, .ok .Finished) => ([], s1, none)
    | (s1, .ok r) =>
      let rest := run_drain env fuel s1
      (r :: rest.1, rest.2)
    | (s1, .error e) => ([], s1, some e)

/-- Projection of a result list to its `Data` events' types and rows. -/
def data_events (l : List (ReadResult Row)) : List (DataEventType × Row) :=
  l.filterMap fun r =>
    match r with
    | .Data et row _ => some (et, row)
    | _ => none

/-- Projection of a result list to the `(version, rows_read_within_version)`
components of the offsets of its `Data` events. -/
def data_offsets (l : List (ReadResult Row)) : List (Nat × Nat) :=
  l.filterMap fun r =>
    match r with
    | .Data _ _ (.DeltaTablePosition v n _) => some (v, n)
    | _ => none

end DeltaTableReader

/-! ## Format-I (Iceberg) reader -/

/-- `FileScanTaskDescriptor`: the equality key used to diff two file plans. -/
structure FileScanTaskDescriptor where
  data_file_path : String
  start : Nat
  length : Nat
deriving DecidableEq, Repr

/-- The world an `IcebergReader` interacts with through one `load_table`
call: the catalog's current snapshot pointer, the file plan computed by
`table.scan().snapshot_id(sid)` for each snapshot (a scan task is identified
by its descriptor; the task payload adds nothing the model needs), and the
decoded rows the table's columnar reader yields for each scan task.
`table.scan()` without an explicit snapshot id plans the current snapshot. -/
structure IcebergTable (Row : Type) where
  current_snapshot_id : Option Nat
  planAt : Nat → List FileScanTaskDescriptor
  rowsOf : FileScanTaskDescriptor → List Row

/-- The file plan of the table's current snapshot (`table.scan()`). -/
def IcebergTable.plan {Row : Type} (t : IcebergTable Row) : List FileScanTaskDescriptor :=
  match t.current_snapshot_id with
  | some sid => t.planAt sid
  | none => []

/-- The mutable state of `IcebergReader`. -/
structure IcebergReader (Row : Type) where
  current_table_plan : List FileScanTaskDescriptor
  current_snapshot_id : Option Nat
  diff_queue : List (ReadResult Row)
  is_initialized : Bool
deriving DecidableEq, Repr

namespace IcebergReader

variable {Row : Type}

/-- `IcebergReader::new`: no snapshot seen yet, empty plan and queue. -/
def new : IcebergReader Row :=
  { current_table_plan := []
    current_snapshot_id := none
    diff_queue := []
    is_initialized := false }

/-- `IcebergReader::table_plans_difference`: the tasks in `model` that are
not in `other` (set difference on the descriptor key).  The source iterates
a `HashSet` difference, whose order is unspecified; the model fixes the
plan order of `model`. -/
def table_plans_difference (model other : List FileScanTaskDescriptor) :
    List FileScanTaskDescriptor :=
  model.filter (fun d => !other.contains d)

/-- `IcebergReader::create_version_diffs`: stream the given scan tasks
through the columnar reader and wrap every decoded row as a `Data` event of
the given type, with the snapshot id as offset. -/
def create_version_diffs (table : IcebergTable Row)
    (difference_tasks : List FileScanTaskDescriptor) (event_type : DataEventType)
    (snapshot_id : Nat) : List (ReadResult Row) :=
  difference_tasks.flatMap fun d =>
    (table.rowsOf d).map fun row =>
      ReadResult.Data event_type row (.IcebergSnapshot snapshot_id)

/-- One iteration of the `while self.diff_queue.is_empty()` loop of
`wait_for_snapshot_update`, given the table returned by this iteration's
`load_table` call: if the catalog has no snapshot or the same snapshot, the
iteration only sleeps (state unchanged); otherwise it installs the new plan,
queueing inserts then deletes framed by `NewSource`/`FinishedSource`
markers when the diff is non-empty. -/
def wait_for_snapshot_update_step (table : IcebergTable Row) (s : IcebergReader Row) :
    IcebergReader Row :=
  match table.current_snapshot_id with
  | none => s
  | some available_snapshot_id =>
    if some available_snapshot_id = s.current_snapshot_id then s
    else
      let updated_table_plan := table.plan
      let insertion_tasks := table_plans_difference updated_table_plan s.current_table_plan
      let q1 := s.diff_queue ++
        create_version_diffs table insertion_tasks .Insert available_snapshot_id
      let deletion_tasks := table_plans_difference s.current_table_plan updated_table_plan
      let q2 := q1 ++ create_version_diffs table deletion_tasks .Delete available_snapshot_id
      let q3 :=
        if q2.isEmpty then q2
        else ReadResult.NewSource available_snapshot_id :: q2 ++ [.FinishedSource true]
      { s with
        diff_queue := q3
        current_snapshot_id := some available_snapshot_id
        current_table_plan := updated_table_plan }

/-- `Reader::seek` for `IcebergReader`: a missing offset or an offset of the
wrong variant leaves the state untouched; otherwise install the file plan of
snapshot `snapshot_id` and record that snapshot id.  (The `load_table` and
scan errors of the source are orthogonal to the claims and not modelled.) -/
def seek (table : IcebergTable Row) (s : IcebergReader Row) (frontier : Option OffsetValue) :
    IcebergReader Row :=
  match frontier with
  | some (.IcebergSnapshot snapshot_id) =>
    { s with
      current_table_plan := table.planAt snapshot_id
      current_snapshot_id := some snapshot_id }
  | some (.DeltaTablePosition _ _ _) => s
  | none => s

end IcebergReader

/-! ## Type mapping and writer schemas -/

/-- The engine's value types (`crate::engine::Type`).  Payloads that the
type mapping never inspects (array dimensions and element types of `Array`,
the component list of `Tuple`) are omitted; `List` and `Optional` keep
their element type because the mapping recurses into `Optional` and the
claims quantify over wrapped types. -/
inductive EngineType where
  | Bool
  | Int
  | Float
  | String
  | Bytes
  | DateTimeNaive
  | DateTimeUtc
  | Duration
  | Json
  | Any
  | Array
  | Tuple
  | List (wrapped : EngineType)
  | PyObjectWrapper
  | Pointer
  | Optional (wrapped : EngineType)
deriving DecidableEq, Repr

/-- The writer-side error kind (`WriteError`), restricted to what the
embedded code can produce. -/
inductive WriteError where
  | UnsupportedType (t : EngineType)
  | Io
deriving DecidableEq, Repr

/-- `deltalake::kernel::PrimitiveType`, restricted to the targets of the
mapping. -/
inductive DeltaTablePrimitiveType where
  | Boolean
  | Double
  | String
  | Binary
  | TimestampNtz
  | Timestamp
  | Long
deriving DecidableEq, Repr

/-- `deltalake::kernel::DataType` (only the `Primitive` constructor is
produced). -/
inductive DeltaTableKernelType where
  | Primitive (p : DeltaTablePrimitiveType)
deriving DecidableEq, Repr

/-- `iceberg::spec::PrimitiveType`, restricted to the targets of the
mapping. -/
inductive IcebergPrimitiveType where
  | Boolean
  | Double
  | String
  | Binary
  | Timestamp
  | Timestamptz
  | Long
deriving DecidableEq, Repr

/-- `iceberg::spec::Type` (only the `Primitive` constructor is produced). -/
inductive IcebergType where
  | Primitive (p : IcebergPrimitiveType)
deriving DecidableEq, Repr

/-- `python_api::ValueField`: a named engine-typed column. -/
structure ValueField where
  name : String
  type_ : EngineType
deriving DecidableEq, Repr

/-- Modelled from the spec: the fixed suffix of special output fields
appended by both writers (`SPECIAL_OUTPUT_FIELDS` lives in
`data_lake/mod.rs`, which is not part of the provided sources).  The spec
fixes only that it is a stable, ordered list of engine-typed columns; two
integer bookkeeping columns realize that. -/
def SPECIAL_OUTPUT_FIELDS : List (String × EngineType) :=
  [("time", EngineType.Int), ("diff", EngineType.Int)]

/-- Modelled from the spec: `Type::can_be_none` of the engine (the engine
crate is not part of the provided sources).  Per the spec, `Optional`-of-T
maps to T with the format's nullability flag set; all concrete types are
non-nullable. -/
def can_be_none : EngineType → Bool
  | .Optional _ => true
  | _ => false

namespace DeltaBatchWriter

/-- `DeltaBatchWriter::delta_table_primitive_type`. -/
def delta_table_primitive_type : EngineType → Except WriteError DeltaTableKernelType
  | .Bool => .ok (.Primitive .Boolean)
  | .Float => .ok (.Primitive .Double)
  | .String => .ok (.Primitive .String)
  | .Json => .ok (.Primitive .String)
  | .Bytes => .ok (.Primitive .Binary)
  | .DateTimeNaive => .ok (.Primitive .TimestampNtz)
  | .DateTimeUtc => .ok (.Primitive .Timestamp)
  | .Int => .ok (.Primitive .Long)
  | .Duration => .ok (.Primitive .Long)
  | .Optional wrapped => delta_table_primitive_type wrapped
  | t => .error (.UnsupportedType t)

/-- `deltalake::kernel::StructField` as constructed by
`DeltaTableStructField::new(name, dtype, nullable)`. -/
structure DeltaTableStructField where
  name : String
  type_ : DeltaTableKernelType
  nullable : Bool
deriving DecidableEq, Repr

/-- The schema-building part of `DeltaBatchWriter::open_table`: user fields
with their `can_be_none` nullability, then the special output fields with
`nullable = false`. -/
def open_table_struct_fields (schema_fields : List ValueField) :
    Except WriteError (List DeltaTableStructField) := do
  let user ← schema_fields.mapM fun field => do
    let t ← delta_table_primitive_type field.type_
    pure (⟨field.name, t, can_be_none field.type_⟩ : DeltaTableStructField)
  let special ← SPECIAL_OUTPUT_FIELDS.mapM fun ft => do
    let t ← delta_table_primitive_type ft.2
    pure (⟨ft.1, t, false⟩ : DeltaTableStructField)
  pure (user ++ special)

end DeltaBatchWriter

namespace IcebergTableParams

/-- `IcebergTableParams::iceberg_type`. -/
def iceberg_type : EngineType → Except WriteError IcebergType
  | .Bool => .ok (.Primitive .Boolean)
  | .Float => .ok (.Primitive .Double)
  | .String => .ok (.Primitive .String)
  | .Json => .ok (.Primitive .String)
  | .Bytes => .ok (.Primitive .Binary)
  | .DateTimeNaive => .ok (.Primitive .Timestamp)
  | .DateTimeUtc => .ok (.Primitive .Timestamptz)
  | .Int => .ok (.Primitive .Long)
  | .Duration => .ok (.Primitive .Long)
  | .Optional wrapped => iceberg_type wrapped
  | t => .error (.UnsupportedType t)

/-- `iceberg::spec::NestedField` as constructed by
`NestedField::new(id, name, field_type, required)`: the fourth argument of
the library constructor is the `required` flag, so `required = false` means
the field is optional, i.e. nullable. -/
structure NestedField where
  id : Nat
  name : String
  field_type : IcebergType
  required : Bool
deriving DecidableEq, Repr

/-- The user-field half of `IcebergTableParams::build_schema`: field `i`
(0-based) gets id `i + 1` and `required = false` (the source passes `false`
as the fourth argument of `NestedField::new`). -/
def user_nested_fields : List ValueField → Nat → Except WriteError (List NestedField)
  | [], _ => .ok []
  | field :: rest, index => do
    let t ← iceberg_type field.type_
    let others ← user_nested_fields rest (index + 1)
    pure (⟨index + 1, field.name, t, false⟩ :: others)

/-- The special-field half of `build_schema`: `current_field_index` starts
at the user-field count and is incremented before each push; `required` is
again `false`. -/
def special_nested_fields :
    List (String × EngineType) → Nat → Except WriteError (List NestedField)
  | [], _ => .ok []
  | ft :: rest, current_field_index => do
    let t ← iceberg_type ft.2
    let others ← special_nested_fields rest (current_field_index + 1)
    pure (⟨current_field_index + 1, ft.1, t, false⟩ :: others)

/-- `IcebergTableParams::build_schema` (the schema is its field list). -/
def build_schema (fields : List ValueField) : Except WriteError (List NestedField) := do
  let user ← user_nested_fields fields 0
  let special ← special_nested_fields SPECIAL_OUTPUT_FIELDS fields.length
  pure (user ++ special)

end IcebergTableParams

/-! ## The spec's type-mapping table (§4.1), stated from the spec's words
for the refinement claim C8 -/

/-- Strip `Optional` wrappers: the spec's rule "Optional(T) → map(T)". -/
def base_of : EngineType → EngineType
  | .Optional wrapped => base_of wrapped
  | t => t

/-- The Format-D column of the spec's mapping table: `none` for the
unsupported row (Any, Array, Tuple, List, OpaqueObject, Pointer). -/
def spec_target_d : EngineType → Option DeltaTablePrimitiveType
  | .Bool => some .Boolean
  | .Int => some .Long
  | .Duration => some .Long
  | .Float => some .Double
  | .String => some .String
  | .Json => some .String
  | .Bytes => some .Binary
  | .DateTimeNaive => some .TimestampNtz
  | .DateTimeUtc => some .Timestamp
  | _ => none

/-- The Format-I column of the spec's mapping table. -/
def spec_target_i : EngineType → Option IcebergPrimitiveType
  | .Bool => some .Boolean
  | .Int => some .Long
  | .Duration => some .Long
  | .Float => some .Double
  | .String => some .String
  | .Json => some .String
  | .Bytes => some .Binary
  | .DateTimeNaive => some .Timestamp
  | .DateTimeUtc => some .Timestamptz
  | _ => none

/-- The spec's `map(engine_type) → format_primitive | UnsupportedType` for
Format-D: strip `Optional`s, look the base type up in the table, and fail
with `UnsupportedType` of that base type otherwise. -/
def spec_map_d (t : EngineType) : Except WriteError DeltaTableKernelType :=
  match spec_target_d (base_of t) with
  | some p => .ok (.Primitive p)
  | none => .error (.UnsupportedType (base_of t))

/-- The spec's mapping for Format-I. -/
def spec_map_i (t : EngineType) : Except WriteError IcebergType :=
  match spec_target_i (base_of t) with
  | some p => .ok (.Primitive p)
  | none => .error (.UnsupportedType (base_of t))

/-- C8.  Type mapping correctness: for every engine type, both writers'
type mappings agree with the spec table (Bool→Boolean; Int64/Duration→Long;
Float→Double; String/Json→String; Bytes→Binary; TimestampNaive→TimestampNtz
for Format-D and Timestamp for Format-I; TimestampUtc→Timestamp for
Format-D and TimestampTz for Format-I; Optional(T)→map(T)), and fail with
`UnsupportedType(t)` exactly for Any, Array, Tuple, List, OpaqueObject
(PyObjectWrapper) and Pointer, also when wrapped in `Optional`. -/
theorem c8_type_mapping (t : EngineType) :
    DeltaBatchWriter.delta_table_primitive_type t = spec_map_d t ∧
    IcebergTableParams.iceberg_type t = spec_map_i t := by
  induction t with
  | Optional wrapped ih => exact ⟨ih.1, ih.2⟩
  | List wrapped ih => exact ⟨rfl, rfl⟩
  | _ => exact ⟨rfl, rfl⟩

/-- C10.  For both readers, `seek` with a frontier whose offset under
`OffsetKey::Empty` is absent, or present but of the wrong variant, returns
`Ok(())` and leaves the entire reader state unchanged. -/
theorem c10_seek_ignores_foreign_offsets (Row : Type) (env : DeltaEnv Row)
    (s : DeltaTableReader Row) (table : IcebergTable Row) (si : IcebergReader Row)
    (sid version n : Nat) (lfrv : Option Nat) :
    DeltaTableReader.seek env s none = (s, none) ∧
    DeltaTableReader.seek env s (some (OffsetValue.IcebergSnapshot sid)) = (s, none) ∧
    IcebergReader.seek table si none = si ∧
    IcebergReader.seek table si (some (OffsetValue.DeltaTablePosition version n lfrv)) = si :=
  ⟨rfl, rfl, rfl, rfl⟩

/-- C9.  Writer schema nullability, evaluated at the failing input
`fields = [("a", Optional Int)]`.  The Format-D writer behaves as claimed:
the user `Optional` field is nullable and the appended special output
fields are non-nullable.  The Format-I writer marks every `NestedField` —
the user fields and the trailing special output fields alike — with
`required = false`, i.e. nullable, contradicting the claim (and the
source's own `// No optional fields` comment): the `required` polarity of
`NestedField::new` is inverted at the call sites. -/
theorem c9_writer_schema_nullability_bug :
    DeltaBatchWriter.open_table_struct_fields [⟨"a", EngineType.Optional EngineType.Int⟩] =
      .ok [⟨"a", .Primitive .Long, true⟩,
           ⟨"time", .Primitive .Long, false⟩,
           ⟨"diff", .Primitive .Long, false⟩] ∧
    IcebergTableParams.build_schema [⟨"a", EngineType.Optional EngineType.Int⟩] =
      .ok [⟨1, "a", .Primitive .Long, false⟩,
           ⟨2, "time", .Primitive .Long, false⟩,
           ⟨3, "diff", .Primitive .Long, false⟩] ∧
    ∀ fs, IcebergTableParams.build_schema [⟨"a", EngineType.Optional EngineType.Int⟩] = .ok fs →
      fs.all (fun nf => !nf.required) = true := by
  refine ⟨rfl, rfl, ?_⟩
  intro fs hfs
  rw [show IcebergTableParams.build_schema [⟨"a", EngineType.Optional EngineType.Int⟩] =
      .ok [⟨1, "a", .Primitive .Long, false⟩,
           ⟨2, "time", .Primitive .Long, false⟩,
           ⟨3, "diff", .Primitive .Long, false⟩] from rfl] at hfs
  injection hfs with h
  rw [← h]
  decide

/-! ## C5: the NoObjectsToRead sentinel -/

/-- C5 (amended).  `read()` never surfaces the internal `NoObjectsToRead`
sentinel: whenever the row fetch ends with it, the `read()` boundary
translates it to `Finished`.  (`seek()`, by contrast, can propagate it; see
the counterexample.) -/
theorem c5_read_never_surfaces_no_objects (Row : Type) (env : DeltaEnv Row)
    (s : DeltaTableReader Row) :
    (DeltaTableReader.read env s).2 ≠ Except.error ReadError.NoObjectsToRead := by
  rcases h : DeltaTableReader.read_next_row_native env s with ⟨s1, r⟩
  unfold DeltaTableReader.read
  rw [h]
  cases r with
  | ok row => simp
  | error e => cases e <;> simp

/-- A table whose version 0 is empty and has no further commits. -/
def env_c5 : DeltaEnv Nat :=
  { base_path := "t"
    commits := [[]]
    snapshotFiles := fun _ => []
    fileRows := fun _ => [] }

/-- C5, counterexample to the `seek` half of the claim: on an empty table,
seeking to the offset `(version 0, 5 rows, no last version)` makes the
slow-skip loop call `read_next_row_native`, which fails with
`NoObjectsToRead`, and `seek` propagates that error to the caller via `?`. -/
theorem c5_counterexample :
    (DeltaTableReader.seek env_c5 (DeltaTableReader.new env_c5 0)
      (some (OffsetValue.DeltaTablePosition 0 5 none))).2 =
      some ReadError.NoObjectsToRead := by
  simp [env_c5, DeltaTableReader.seek, DeltaTableReader.new,
    DeltaTableReader.get_reader_actions, DeltaTableReader.fast_skip,
    DeltaTableReader.slow_skip, DeltaTableReader.read_next_row_native,
    DeltaTableReader.read_row_from_files, DeltaTableReader.pull_from_queue,
    DeltaTableReader.pull_loop, DeltaTableReader.upgrade_table_version,
    DeltaTableReader.upgrade_loop]

/-! ## C3: deletion-vector rejection -/

/-- Whether a commit action is a `Remove` carrying a deletion vector. -/
def has_deletion_vector : DeltaLakeAction → Bool
  | .Remove _ _ deletion_vector => deletion_vector.isSome
  | _ => false

lemma collect_txn_actions_deletion_vector (base_path : String)
    (actions : List DeltaLakeAction)
    (h : actions.any has_deletion_vector = true) :
    DeltaTableReader.collect_txn_actions base_path actions =
      .error ReadError.DeltaDeletionVectorsNotSupported := by
  induction actions with
  | nil => simp at h
  | cons a rest ih =>
    rcases a with ⟨p, dc, dv⟩ | ⟨p, dc⟩ | _
    · by_cases hdv : dv.isSome
      · simp [DeltaTableReader.collect_txn_actions, hdv]
      · have : rest.any has_deletion_vector = true := by
          simpa [has_deletion_vector, hdv] using h
        simp [DeltaTableReader.collect_txn_actions, hdv, ih this]
    · have : rest.any has_deletion_vector = true := by
        simpa [has_deletion_vector] using h
      simp [DeltaTableReader.collect_txn_actions, ih this]
    · have : rest.any has_deletion_vector = true := by
        simpa [has_deletion_vector] using h
      simp [DeltaTableReader.collect_txn_actions, ih this]

/-- C3.  If the next commit after `current_version` contains a `Remove`
action carrying a deletion vector, the next `read()` — taken in the state
where the reader consults the log, i.e. with no open row iterator and an
empty work queue — returns `DeltaDeletionVectorsNotSupported` rather than
any `Data` event, for every such commit and regardless of the other actions
in it. -/
theorem c3_deletion_vector_rejection (Row : Type) (env : DeltaEnv Row)
    (s : DeltaTableReader Row)
    (hr : s.reader = none) (hq : s.parquet_files_queue = [])
    (hv : s.current_version + 1 < env.commits.length)
    (hdv : (env.commits.getD (s.current_version + 1) []).any has_deletion_vector = true) :
    (DeltaTableReader.read env s).2 =
      Except.error ReadError.DeltaDeletionVectorsNotSupported := by
  have hp : DeltaTableReader.pull_from_queue env s =
      (none, { s with parquet_files_queue := [] }) := by
    rw [DeltaTableReader.pull_from_queue, hq]
    rfl
  have hcl := collect_txn_actions_deletion_vector env.base_path
    (env.commits.getD (s.current_version + 1) []) hdv
  have hu : DeltaTableReader.upgrade_table_version env
      ({ s with parquet_files_queue := [] } : DeltaTableReader Row) =
      ({ s with parquet_files_queue := [] },
        some ReadError.DeltaDeletionVectorsNotSupported) := by
    unfold DeltaTableReader.upgrade_table_version
    rw [DeltaTableReader.upgrade_loop]
    rw [if_pos (by simp)]
    rw [dif_pos (by simpa using hv)]
    simp only [List.getD_eq_getElem?_getD] at hcl
    simp [hcl]
  have hn : DeltaTableReader.read_row_from_files env s =
      ({ s with parquet_files_queue := [] },
        .error ReadError.DeltaDeletionVectorsNotSupported) := by
    rw [DeltaTableReader.read_row_from_files]
    simp only [hp, hu]
  unfold DeltaTableReader.read DeltaTableReader.read_next_row_native
  rw [hr]
  simp only [hn]

/-- A table whose commit 1 removes a file with a deletion vector (among
other actions). -/
def env_c3 : DeltaEnv Nat :=
  { base_path := "t"
    commits := [[], [DeltaLakeAction.Add "a" true,
                     DeltaLakeAction.Remove "r" true (some ()),
                     DeltaLakeAction.Other]]
    snapshotFiles := fun _ => []
    fileRows := fun _ => [] }

/-- Witness for C3 at a concrete table: the reader opened at version 0 of
`env_c3` (empty snapshot, drained) hits the deletion vector of commit 1 on
its next `read()`. -/
theorem c3_deletion_vector_rejection_witness :
    (DeltaTableReader.new env_c3 0).reader = none ∧
    (DeltaTableReader.new env_c3 0).parquet_files_queue = [] ∧
    (DeltaTableReader.new env_c3 0).current_version + 1 < env_c3.commits.length ∧
    (env_c3.commits.getD ((DeltaTableReader.new env_c3 0).current_version + 1) []).any
      has_deletion_vector = true ∧
    (DeltaTableReader.read env_c3 (DeltaTableReader.new env_c3 0)).2 =
      Except.error ReadError.DeltaDeletionVectorsNotSupported :=
  ⟨rfl, rfl, by decide, by decide,
    c3_deletion_vector_rejection Nat env_c3 (DeltaTableReader.new env_c3 0)
      rfl rfl (by decide) (by decide)⟩

/-! ## C7: Iceberg resume semantics -/

/-- A catalog whose current snapshot is 3; snapshot 5 (the seek target) has
a different file plan. -/
def table_c7 : IcebergTable Nat :=
  { current_snapshot_id := some 3
    planAt := fun sid => if sid = 3 then [⟨"b", 0, 1⟩] else [⟨"a", 0, 1⟩]
    rowsOf := fun _ => [1] }

/-- C7, counterexample: after `seek` records snapshot 5, the next
SnapshotAdvance iteration installs the catalog's snapshot 3 — which is not
strictly newer than 5 — because the source only checks that the available
snapshot differs from the recorded one. -/
theorem c7_counterexample :
    (IcebergReader.wait_for_snapshot_update_step table_c7
        (IcebergReader.seek table_c7 IcebergReader.new
          (some (OffsetValue.IcebergSnapshot 5)))).current_snapshot_id = some 3 ∧
    ¬ (5 < 3) := by
  constructor
  · rfl
  · decide

/-- C7 (amended).  Format-I resume semantics: after `seek` with offset
`snapshot_id = sid`, `current_table_plan` is the file plan of snapshot
`sid` and `current_snapshot_id = sid`; a SnapshotAdvance iteration that
sees no snapshot, or the same snapshot id as the recorded one, changes
nothing (the reader keeps waiting); and whenever an iteration changes the
recorded snapshot id it installs exactly the catalog's currently available
snapshot, which differs from — but need not be newer than — the recorded
one. -/
theorem c7_iceberg_resume (Row : Type) (table table2 : IcebergTable Row)
    (s st : IcebergReader Row) (sid : Nat) :
    (IcebergReader.seek table s (some (OffsetValue.IcebergSnapshot sid))).current_table_plan
        = table.planAt sid ∧
    (IcebergReader.seek table s (some (OffsetValue.IcebergSnapshot sid))).current_snapshot_id
        = some sid ∧
    (table2.current_snapshot_id = st.current_snapshot_id →
      IcebergReader.wait_for_snapshot_update_step table2 st = st) ∧
    (table2.current_snapshot_id = none →
      IcebergReader.wait_for_snapshot_update_step table2 st = st) ∧
    ((IcebergReader.wait_for_snapshot_update_step table2 st).current_snapshot_id
        ≠ st.current_snapshot_id →
      table2.current_snapshot_id ≠ st.current_snapshot_id ∧
      (IcebergReader.wait_for_snapshot_update_step table2 st).current_snapshot_id
        = table2.current_snapshot_id) := by
  refine ⟨rfl, rfl, ?_, ?_, ?_⟩
  · intro h
    unfold IcebergReader.wait_for_snapshot_update_step
    cases htab : table2.current_snapshot_id with
    | none => rfl
    | some id =>
      rw [htab] at h
      simp [h]
  · intro h
    unfold IcebergReader.wait_for_snapshot_update_step
    rw [h]
  · cases htab : table2.current_snapshot_id with
    | none =>
      intro h
      unfold IcebergReader.wait_for_snapshot_update_step at h
      rw [htab] at h
      simp at h
    | some id =>
      intro h
      unfold IcebergReader.wait_for_snapshot_update_step at h ⊢
      rw [htab] at h ⊢
      dsimp only at h ⊢
      constructor
      · intro hc
        rw [if_pos hc] at h
        exact absurd rfl h
      · by_cases heq : some id = st.current_snapshot_id
        · rw [if_pos heq] at h
          exact absurd rfl h
        · rw [if_neg heq]

/-- Witness for C7 at a concrete catalog and reader state. -/
theorem c7_iceberg_resume_witness :
    (IcebergReader.seek table_c7 IcebergReader.new
        (some (OffsetValue.IcebergSnapshot 5))).current_table_plan = table_c7.planAt 5 ∧
    (table_c7.current_snapshot_id =
        (IcebergReader.seek table_c7 IcebergReader.new
          (some (OffsetValue.IcebergSnapshot 3))).current_snapshot_id →
      IcebergReader.wait_for_snapshot_update_step table_c7
        (IcebergReader.seek table_c7 IcebergReader.new
          (some (OffsetValue.IcebergSnapshot 3))) =
        IcebergReader.seek table_c7 IcebergReader.new
          (some (OffsetValue.IcebergSnapshot 3))) ∧
    ((IcebergReader.wait_for_snapshot_update_step table_c7
        (IcebergReader.seek table_c7 IcebergReader.new
          (some (OffsetValue.IcebergSnapshot 5)))).current_snapshot_id ≠ some 5 →
      table_c7.current_snapshot_id ≠ some 5) := by
  refine ⟨(c7_iceberg_resume Nat table_c7 table_c7 IcebergReader.new IcebergReader.new 5).1,
    (c7_iceberg_resume Nat table_c7 table_c7 IcebergReader.new
      (IcebergReader.seek table_c7 IcebergReader.new
        (some (OffsetValue.IcebergSnapshot 3))) 3).2.2.1, ?_⟩
  intro h
  have := (c7_iceberg_resume Nat table_c7 table_c7 IcebergReader.new
    (IcebergReader.seek table_c7 IcebergReader.new
      (some (OffsetValue.IcebergSnapshot 5))) 5).2.2.2.2 (by exact h)
  exact this.1

/-! ## C6: Iceberg snapshot-transition ordering and framing -/

/-- Whether a read result is an `Insert` data event. -/
def is_insert_data {Row : Type} : ReadResult Row → Bool
  | .Data .Insert _ _ => true
  | _ => false

/-- Whether a read result is a `Delete` data event. -/
def is_delete_data {Row : Type} : ReadResult Row → Bool
  | .Data .Delete _ _ => true
  | _ => false

lemma pairwise_of_forall_left {α : Type} {R : α → α → Prop} :
    ∀ {l : List α}, (∀ a ∈ l, ∀ b, R a b) → l.Pairwise R
  | [], _ => List.Pairwise.nil
  | a :: l, h =>
    List.Pairwise.cons (fun b _ => h a (by simp) b)
      (pairwise_of_forall_left (fun x hx b => h x (by simp [hx]) b))

lemma pairwise_of_forall_right {α : Type} {R : α → α → Prop} :
    ∀ {l : List α}, (∀ b ∈ l, ∀ a, R a b) → l.Pairwise R
  | [], _ => List.Pairwise.nil
  | a :: l, h =>
    List.Pairwise.cons (fun b hb => h b (by simp [hb]) a)
      (pairwise_of_forall_right (fun x hx b => h x (by simp [hx]) b))

lemma mem_create_version_diffs {Row : Type} (table : IcebergTable Row)
    (tasks : List FileScanTaskDescriptor) (et : DataEventType) (sid : Nat)
    (e : ReadResult Row) (he : e ∈ IcebergReader.create_version_diffs table tasks et sid) :
    ∃ row, e = ReadResult.Data et row (OffsetValue.IcebergSnapshot sid) := by
  simp only [IcebergReader.create_version_diffs, List.mem_flatMap, List.mem_map] at he
  obtain ⟨d, _, row, _, hrow⟩ := he
  exact ⟨row, hrow.symm⟩

/-- The insert half of one snapshot transition: the rows of the new plan
minus the old plan. -/
def transition_inserts {Row : Type} (table : IcebergTable Row) (s : IcebergReader Row)
    (id : Nat) : List (ReadResult Row) :=
  IcebergReader.create_version_diffs table
    (IcebergReader.table_plans_difference table.plan s.current_table_plan)
    DataEventType.Insert id

/-- The delete half of one snapshot transition: the rows of the old plan
minus the new plan. -/
def transition_deletes {Row : Type} (table : IcebergTable Row) (s : IcebergReader Row)
    (id : Nat) : List (ReadResult Row) :=
  IcebergReader.create_version_diffs table
    (IcebergReader.table_plans_difference s.current_table_plan table.plan)
    DataEventType.Delete id

/-- C6.  Within one snapshot transition of `IcebergReader` (the catalog
exposes snapshot `id`, different from the recorded one, and the queue is
drained), all `Insert` events precede all `Delete` events; when the
combined list is non-empty it is framed by a leading `NewSource(id)` and a
trailing `FinishedSource(commit_allowed = true)`, and when it is empty no
markers are emitted. -/
theorem c6_iceberg_transition_ordering (Row : Type) (table : IcebergTable Row)
    (s : IcebergReader Row) (id : Nat)
    (htab : table.current_snapshot_id = some id)
    (hne : some id ≠ s.current_snapshot_id)
    (hq : s.diff_queue = []) :
    ((transition_inserts table s id ++ transition_deletes table s id = []) →
      (IcebergReader.wait_for_snapshot_update_step table s).diff_queue = []) ∧
    ((transition_inserts table s id ++ transition_deletes table s id ≠ []) →
      (IcebergReader.wait_for_snapshot_update_step table s).diff_queue =
        ReadResult.NewSource id ::
          (transition_inserts table s id ++ transition_deletes table s id) ++
          [ReadResult.FinishedSource true]) ∧
    (∀ e ∈ transition_inserts table s id,
      ∃ row, e = ReadResult.Data DataEventType.Insert row (OffsetValue.IcebergSnapshot id)) ∧
    (∀ e ∈ transition_deletes table s id,
      ∃ row, e = ReadResult.Data DataEventType.Delete row (OffsetValue.IcebergSnapshot id)) ∧
    (IcebergReader.wait_for_snapshot_update_step table s).diff_queue.Pairwise
      (fun a b => is_delete_data a = true → is_insert_data b = false) := by
  have hqueue : (IcebergReader.wait_for_snapshot_update_step table s).diff_queue =
      if (transition_inserts table s id ++ transition_deletes table s id).isEmpty then
        transition_inserts table s id ++ transition_deletes table s id
      else
        ReadResult.NewSource id ::
          (transition_inserts table s id ++ transition_deletes table s id) ++
          [ReadResult.FinishedSource true] := by
    unfold IcebergReader.wait_for_snapshot_update_step
    rw [htab]
    dsimp only
    rw [if_neg hne, hq]
    simp [transition_inserts, transition_deletes]
  have hins : ∀ e ∈ transition_inserts table s id,
      ∃ row, e = ReadResult.Data DataEventType.Insert row (OffsetValue.IcebergSnapshot id) :=
    fun e he => mem_create_version_diffs table _ _ id e he
  have hdel : ∀ e ∈ transition_deletes table s id,
      ∃ row, e = ReadResult.Data DataEventType.Delete row (OffsetValue.IcebergSnapshot id) :=
    fun e he => mem_create_version_diffs table _ _ id e he
  refine ⟨?_, ?_, hins, hdel, ?_⟩
  · intro hempty
    rw [hqueue, hempty]
    simp
  · intro hnempty
    rw [hqueue, if_neg (by simpa [List.isEmpty_iff] using hnempty)]
  · rw [hqueue]
    by_cases hempty : (transition_inserts table s id ++ transition_deletes table s id).isEmpty
    · rw [if_pos hempty]
      rw [List.isEmpty_iff.mp hempty]
      exact List.Pairwise.nil
    · rw [if_neg hempty]
      have hsplit : (ReadResult.NewSource id ::
          (transition_inserts table s id ++ transition_deletes table s id) ++
          [ReadResult.FinishedSource true] : List (ReadResult Row)) =
          (ReadResult.NewSource id :: transition_inserts table s id) ++
          (transition_deletes table s id ++ [ReadResult.FinishedSource true]) := by
        simp
      rw [hsplit, List.pairwise_append]
      have hleft : ∀ a ∈ (ReadResult.NewSource id :: transition_inserts table s id :
          List (ReadResult Row)), is_delete_data a = false := by
        intro a ha
        rcases List.mem_cons.mp ha with h | h
        · rw [h]; rfl
        · obtain ⟨row, rfl⟩ := hins a h
          rfl
      have hright : ∀ b ∈ transition_deletes table s id ++
          ([ReadResult.FinishedSource true] : List (ReadResult Row)), is_insert_data b = false := by
        intro b hb
        rcases List.mem_append.mp hb with h | h
        · obtain ⟨row, rfl⟩ := hdel b h
          rfl
        · rw [List.mem_singleton.mp h]
          rfl
      refine ⟨pairwise_of_forall_left ?_, pairwise_of_forall_right ?_, ?_⟩
      · intro a ha b hda
        rw [hleft a ha] at hda
        exact absurd hda (by simp)
      · intro b hb a _
        exact hright b hb
      · intro a _ b hb _
        exact hright b hb

/-- A transition with one inserted file and one deleted file, for the C6
witness. -/
def table_c6 : IcebergTable Nat :=
  { current_snapshot_id := some 2
    planAt := fun sid => if sid = 2 then [⟨"new", 0, 1⟩, ⟨"keep", 0, 1⟩] else []
    rowsOf := fun d => if d.data_file_path = "new" then [10] else [20] }

/-- The reader state caught up to the previous snapshot for the C6
witness. -/
def reader_c6 : IcebergReader Nat :=
  { current_table_plan := [⟨"old", 0, 1⟩, ⟨"keep", 0, 1⟩]
    current_snapshot_id := some 1
    diff_queue := []
    is_initialized := true }

/-- Witness for C6 at a concrete transition: snapshot 2 replaces file "old"
by file "new" while "keep" persists; the queue is framed and ordered as the
claim states. -/
theorem c6_iceberg_transition_ordering_witness :
    table_c6.current_snapshot_id = some 2 ∧
    some 2 ≠ reader_c6.current_snapshot_id ∧
    reader_c6.diff_queue = [] ∧
    (transition_inserts table_c6 reader_c6 2 ++ transition_deletes table_c6 reader_c6 2 ≠ [] →
      (IcebergReader.wait_for_snapshot_update_step table_c6 reader_c6).diff_queue =
        ReadResult.NewSource 2 ::
          (transition_inserts table_c6 reader_c6 2 ++ transition_deletes table_c6 reader_c6 2) ++
          [ReadResult.FinishedSource true]) ∧
    (IcebergReader.wait_for_snapshot_update_step table_c6 reader_c6).diff_queue.Pairwise
      (fun a b => is_delete_data a = true → is_insert_data b = false) :=
  ⟨rfl, by decide, rfl,
    (c6_iceberg_transition_ordering Nat table_c6 reader_c6 2 rfl (by decide) rfl).2.1,
    (c6_iceberg_transition_ordering Nat table_c6 reader_c6 2 rfl (by decide) rfl).2.2.2.2⟩

/-! ## C1: replay equivalence and the mid-file rewind counter -/

/-- With an empty base path, path absolutization is the identity (the empty
string is a prefix of every path). -/
lemma ensure_absolute_path_empty_base (p : String) :
    DeltaTableReader.ensure_absolute_path_with_base p "" = p := by
  have h : (("" : String).data.isPrefixOf p.data) = true := by
    rw [show ("" : String).data = [] from rfl]
    cases p.data with
    | nil => rfl
    | cons c cs => rfl
  unfold DeltaTableReader.ensure_absolute_path_with_base
  rw [if_pos h]

/-- A table created empty (version 0) whose commit 1 adds one file with two
rows. -/
def env_c1 : DeltaEnv Nat :=
  { base_path := ""
    commits := [[], [DeltaLakeAction.Add "f" true]]
    snapshotFiles := fun v => if v = 1 then ["f"] else []
    fileRows := fun p => if p = "f" then [10, 20] else [] }

/-- C1, evaluated at the failing input.  A reader opened at version 0 of
`env_c1` emits two events with offsets `(1, 1, some 0)` and `(1, 2, some 0)`
and finishes.  A fresh reader (opened at the table's latest version 1) that
seeks to the first offset `(1, 1, some 0)` emits the correct second row but
with offset `(1, 1, some 0)` instead of `(1, 2, some 0)`: the slow-skip
loop of `seek` advances the row iterator through `read_next_row_native`,
which does not increment `rows_read_within_version` (unlike the fast-skip
loop, which does), so the resumed offsets restart below the seek target and
replay equivalence of offsets fails. -/
theorem c1_replay_offset_divergence :
    (DeltaTableReader.run_drain env_c1 5 (DeltaTableReader.new env_c1 0)).1 =
      [ReadResult.Data DataEventType.Insert 10 (OffsetValue.DeltaTablePosition 1 1 (some 0)),
       ReadResult.Data DataEventType.Insert 20 (OffsetValue.DeltaTablePosition 1 2 (some 0))] ∧
    (DeltaTableReader.run_drain env_c1 5 (DeltaTableReader.new env_c1 0)).2.2 = none ∧
    (DeltaTableReader.seek env_c1 (DeltaTableReader.new env_c1 1)
        (some (OffsetValue.DeltaTablePosition 1 1 (some 0)))).2 = none ∧
    (DeltaTableReader.read env_c1
        (DeltaTableReader.seek env_c1 (DeltaTableReader.new env_c1 1)
          (some (OffsetValue.DeltaTablePosition 1 1 (some 0)))).1).2 =
      Except.ok (ReadResult.Data DataEventType.Insert 20
        (OffsetValue.DeltaTablePosition 1 1 (some 0))) := by
  refine ⟨?_, ?_, ?_, ?_⟩ <;>
    simp [env_c1, DeltaTableReader.run_drain, DeltaTableReader.read,
      DeltaTableReader.new, DeltaTableReader.get_reader_actions,
      ensure_absolute_path_empty_base,
      DeltaTableReader.read_next_row_native, DeltaTableReader.read_row_from_files,
      DeltaTableReader.pull_from_queue, DeltaTableReader.pull_loop,
      DeltaTableReader.upgrade_table_version, DeltaTableReader.upgrade_loop,
      DeltaTableReader.collect_txn_actions, DeltaTableReader.seek,
      DeltaTableReader.fast_skip, DeltaTableReader.slow_skip,
      DeltaTableReader.rows_in_file_count]

/-! ## C2: offset monotonicity for the Delta reader -/

/-- The relation between the `(version, rows_read_within_version)` pairs of
two consecutive emitted offsets: either the version is unchanged and the
row counter advances by exactly one, or the version strictly increases and
the row counter restarts at 1 (reset to 0, then incremented by the
emitting `read`). -/
def offset_step (p q : Nat × Nat) : Prop :=
  (q.1 = p.1 ∧ q.2 = p.2 + 1) ∨ (p.1 < q.1 ∧ q.2 = 1)

namespace DeltaTableReader

lemma upgrade_loop_fields (env : DeltaEnv Row) (s : DeltaTableReader Row) :
    ((upgrade_loop env s).1.current_version = s.current_version ∧
     (upgrade_loop env s).1.rows_read_within_version = s.rows_read_within_version ∧
     (upgrade_loop env s).1.last_fully_read_version = s.last_fully_read_version) ∨
    (s.current_version < (upgrade_loop env s).1.current_version ∧
     (upgrade_loop env s).1.rows_read_within_version = 0) := by
  induction s using upgrade_loop.induct env with
  | case1 s hemp h e hcol =>
    rw [upgrade_loop, if_pos hemp, dif_pos h, hcol]
    exact Or.inl ⟨rfl, rfl, rfl⟩
  | case2 s hemp h blocks dc hcol ih =>
    rw [upgrade_loop, if_pos hemp, dif_pos h, hcol]
    simp only [dite_eq_ite] at ih
    rcases ih with ⟨h1, h2, _⟩ | ⟨h1, h2⟩
    · right
      refine ⟨?_, h2⟩
      rw [h1]
      exact Nat.lt_succ_self _
    · right
      refine ⟨?_, h2⟩
      exact Nat.lt_trans (Nat.lt_succ_self _) h1
  | case3 s hemp h =>
    rw [upgrade_loop, if_pos hemp, dif_neg h]
    exact Or.inl ⟨rfl, rfl, rfl⟩
  | case4 s hemp =>
    rw [upgrade_loop, if_neg hemp]
    exact Or.inl ⟨rfl, rfl, rfl⟩

lemma upgrade_table_version_fields (env : DeltaEnv Row) (s : DeltaTableReader Row) :
    ((upgrade_table_version env s).1.current_version = s.current_version ∧
     (upgrade_table_version env s).1.rows_read_within_version = s.rows_read_within_version ∧
     (upgrade_table_version env s).1.last_fully_read_version = s.last_fully_read_version) ∨
    (s.current_version < (upgrade_table_version env s).1.current_version ∧
     (upgrade_table_version env s).1.rows_read_within_version = 0) :=
  upgrade_loop_fields env { s with parquet_files_queue := [] }

lemma read_row_from_files_ok (env : DeltaEnv Row) (s : DeltaTableReader Row) :
    ∀ s' r, read_row_from_files env s = (s', Except.ok r) →
    (s'.current_version = s.current_version ∧
     s'.rows_read_within_version = s.rows_read_within_version ∧
     s'.last_fully_read_version = s.last_fully_read_version) ∨
    (s.current_version < s'.current_version ∧ s'.rows_read_within_version = 0) := by
  have key : ∀ (n : Nat) (s : DeltaTableReader Row),
      env.commits.length - s.current_version = n →
      ∀ s' r, read_row_from_files env s = (s', Except.ok r) →
      (s'.current_version = s.current_version ∧
       s'.rows_read_within_version = s.rows_read_within_version ∧
       s'.last_fully_read_version = s.last_fully_read_version) ∨
      (s.current_version < s'.current_version ∧ s'.rows_read_within_version = 0) := by
    intro n
    induction n using Nat.strong_induction_on with
    | _ n ih =>
      intro s hgap s' r h
      rw [read_row_from_files] at h
      obtain ⟨hp1, hp2, hp3⟩ := pull_from_queue_preserves env s
      cases hpull : (pull_from_queue env s).1 with
      | some r0 =>
        rw [hpull] at h
        dsimp only at h
        have h1 := congrArg Prod.fst h
        dsimp only at h1
        rw [← h1]
        exact Or.inl ⟨hp1, hp2, hp3⟩
      | none =>
        rw [hpull] at h
        dsimp only at h
        cases hupg : (upgrade_table_version env (pull_from_queue env s).2).2 with
        | some e =>
          rw [hupg] at h
          dsimp only at h
          exact absurd (congrArg Prod.snd h) (by simp)
        | none =>
          rw [hupg] at h
          dsimp only at h
          by_cases hq :
            (upgrade_table_version env (pull_from_queue env s).2).1.parquet_files_queue.isEmpty
          · rw [dif_pos hq] at h
            exact absurd (congrArg Prod.snd h) (by simp)
          · rw [dif_neg hq] at h
            have hgaplt : env.commits.length -
                (upgrade_table_version env (pull_from_queue env s).2).1.current_version < n := by
              have hg := upgrade_table_version_gap env (pull_from_queue env s).2
                (by simpa [List.isEmpty_iff] using hq)
              omega
            have hrec := ih _ hgaplt _ rfl s' r h
            have hupf := upgrade_table_version_fields env (pull_from_queue env s).2
            rcases hupf with ⟨u1, u2, u3⟩ | ⟨u1, u2⟩ <;>
              rcases hrec with ⟨a1, a2, a3⟩ | ⟨a1, a2⟩
            · exact Or.inl ⟨by omega, by omega, by rw [a3, u3, hp3]⟩
            · exact Or.inr ⟨by omega, a2⟩
            · exact Or.inr ⟨by omega, by omega⟩
            · exact Or.inr ⟨by omega, a2⟩
  exact key _ s rfl

lemma read_next_row_native_ok (env : DeltaEnv Row) (s s' : DeltaTableReader Row) (r : Row)
    (h : read_next_row_native env s = (s', Except.ok r)) :
    (s'.current_version = s.current_version ∧
     s'.rows_read_within_version = s.rows_read_within_version ∧
     s'.last_fully_read_version = s.last_fully_read_version) ∨
    (s.current_version < s'.current_version ∧ s'.rows_read_within_version = 0) := by
  unfold read_next_row_native at h
  cases hrd : s.reader with
  | some rows =>
    rw [hrd] at h
    cases rows with
    | cons row rest =>
      dsimp only at h
      have h1 := congrArg Prod.fst h
      dsimp only at h1
      rw [← h1]
      exact Or.inl ⟨rfl, rfl, rfl⟩
    | nil =>
      dsimp only at h
      simpa using read_row_from_files_ok env { s with reader := none } s' r h
  | none =>
    rw [hrd] at h
    dsimp only at h
    exact read_row_from_files_ok env s s' r h

/-- The emission step of `read`: every `Ok` outcome is `Finished` or a
`Data` event whose offset is the post-state's position, one `offset_step`
beyond the pre-state's position. -/
lemma read_step (env : DeltaEnv Row) (s s' : DeltaTableReader Row) (r : ReadResult Row)
    (h : read env s = (s', Except.ok r)) :
    r = ReadResult.Finished ∨
    (∃ et row, r = ReadResult.Data et row
        (OffsetValue.DeltaTablePosition s'.current_version s'.rows_read_within_version
          s'.last_fully_read_version) ∧
      offset_step (s.current_version, s.rows_read_within_version)
        (s'.current_version, s'.rows_read_within_version)) := by
  unfold read at h
  rcases hn : read_next_row_native env s with ⟨s1, res1⟩
  rw [hn] at h
  cases res1 with
  | ok row =>
    dsimp only at h
    have h1 := congrArg Prod.fst h
    have h2 := congrArg Prod.snd h
    dsimp only at h1 h2
    injection h2 with h2
    right
    refine ⟨s1.current_event_type, row, ?_, ?_⟩
    · rw [← h2, ← h1]
    · rw [← h1]
      dsimp only
      rcases read_next_row_native_ok env s s1 row hn with ⟨a1, a2, _⟩ | ⟨a1, a2⟩
      · exact Or.inl ⟨a1, by rw [a2]⟩
      · exact Or.inr ⟨a1, by rw [a2]⟩
  | error e =>
    cases e with
    | NoObjectsToRead =>
      dsimp only at h
      have h2 := congrArg Prod.snd h
      dsimp only at h2
      injection h2 with h2
      exact Or.inl h2.symm
    | DeltaDeletionVectorsNotSupported => exact absurd (congrArg Prod.snd h) (by simp)
    | Parquet => exact absurd (congrArg Prod.snd h) (by simp)
    | Io => exact absurd (congrArg Prod.snd h) (by simp)

lemma run_drain_chain (env : DeltaEnv Row) (fuel : Nat) :
    ∀ s : DeltaTableReader Row,
    List.Chain offset_step (s.current_version, s.rows_read_within_version)
      (data_offsets (run_drain env fuel s).1) := by
  induction fuel with
  | zero => intro s; simp [run_drain, data_offsets]
  | succ fuel ih =>
    intro s
    rw [run_drain]
    rcases h : read env s with ⟨s1, res⟩
    cases res with
    | error e => simp [data_offsets]
    | ok r =>
      rcases read_step env s s1 r h with rfl | ⟨et, row, rfl, hstep⟩
      · simp [data_offsets]
      · dsimp only
        rw [show data_offsets (ReadResult.Data et row
            (OffsetValue.DeltaTablePosition s1.current_version s1.rows_read_within_version
              s1.last_fully_read_version) :: (run_drain env fuel s1).1) =
            (s1.current_version, s1.rows_read_within_version) ::
              data_offsets (run_drain env fuel s1).1 from rfl]
        exact List.Chain.cons hstep (ih s1)

end DeltaTableReader

/-- C2.  Offset monotonicity for the Delta reader: starting from any reader
state, along any run of `read` (no seek), consecutive emitted
`(current_version, rows_read_within_version)` offset pairs satisfy
`offset_step` — the row counter resets (to 0, emitted as 1) exactly at the
reads where the version strictly increases and advances by exactly 1
otherwise — and are therefore lexicographically strictly increasing, in
particular non-decreasing.  The chain is anchored at the pre-run state's
position. -/
theorem c2_offset_monotonicity (Row : Type) (env : DeltaEnv Row) (fuel : Nat)
    (s : DeltaTableReader Row) :
    List.Chain offset_step (s.current_version, s.rows_read_within_version)
      (DeltaTableReader.data_offsets (DeltaTableReader.run_drain env fuel s).1) ∧
    List.Chain (fun p q : Nat × Nat => p.1 < q.1 ∨ (p.1 = q.1 ∧ p.2 ≤ q.2))
      (s.current_version, s.rows_read_within_version)
      (DeltaTableReader.data_offsets (DeltaTableReader.run_drain env fuel s).1) := by
  refine ⟨DeltaTableReader.run_drain_chain env fuel s, ?_⟩
  refine List.Chain.imp ?_ (DeltaTableReader.run_drain_chain env fuel s)
  intro p q hpq
  rcases hpq with ⟨h1, h2⟩ | ⟨h1, h2⟩
  · exact Or.inr ⟨h1.symm, by omega⟩
  · exact Or.inl h1

/-! ## C4: metadata-only commits are invisible

The claim compares a table with and without one such commit.  `env_insert`
inserts a commit at version `j` (the versions of all later commits shift up
by one, and the snapshot file lists shift accordingly — a metadata-only
commit does not change the file set).  `shiftV` is the induced renumbering
of versions, and runs of the two readers are related step by step. -/

/-- The `data_change` flag of a commit action (`false` for ignored action
kinds). -/
def action_data_change : DeltaLakeAction → Bool
  | .Remove _ data_change _ => data_change
  | .Add _ data_change => data_change
  | .Other => false

/-- Version renumbering induced by inserting a commit at version `j`. -/
def shiftV (j v : Nat) : Nat := if v < j then v else v + 1

lemma shiftV_of_lt {j v : Nat} (h : v < j) : shiftV j v = v := if_pos h

lemma shiftV_of_ge {j v : Nat} (h : j ≤ v) : shiftV j v = v + 1 := if_neg (by omega)

/-- The table of `env` with one extra commit `meta` inserted at version `j`:
later commits move up one version, and the snapshot served at a shifted
version is the snapshot of the unshifted one (the inserted commit carries no
file change). -/
def env_insert {Row : Type} (env : DeltaEnv Row) (j : Nat) (meta : List DeltaLakeAction) :
    DeltaEnv Row :=
  { base_path := env.base_path
    commits := env.commits.take j ++ meta :: env.commits.drop j
    snapshotFiles := fun v => if v < j then env.snapshotFiles v else env.snapshotFiles (v - 1)
    fileRows := env.fileRows }

namespace DeltaTableReader

variable {Row : Type}

lemma env_insert_commits_length (env : DeltaEnv Row) (j : Nat) (meta : List DeltaLakeAction)
    (hj : j ≤ env.commits.length) :
    (env_insert env j meta).commits.length = env.commits.length + 1 := by
  simp [env_insert]
  omega

lemma env_insert_commits_lt (env : DeltaEnv Row) (j : Nat) (meta : List DeltaLakeAction)
    (hj : j ≤ env.commits.length) (i : Nat) (hi : i < j) :
    (env_insert env j meta).commits.getD i [] = env.commits.getD i [] := by
  have htk : (env.commits.take j).length = j := by simp [List.length_take]; omega
  rw [show (env_insert env j meta).commits =
    env.commits.take j ++ meta :: env.commits.drop j from rfl]
  conv_rhs => rw [← List.take_append_drop j env.commits]
  rw [List.getD_eq_getElem?_getD, List.getD_eq_getElem?_getD,
    List.getElem?_append_left (by omega), List.getElem?_append_left (by omega)]

lemma env_insert_commits_at (env : DeltaEnv Row) (j : Nat) (meta : List DeltaLakeAction)
    (hj : j ≤ env.commits.length) :
    (env_insert env j meta).commits.getD j [] = meta := by
  have htk : (env.commits.take j).length = j := by simp [List.length_take]; omega
  rw [show (env_insert env j meta).commits =
    env.commits.take j ++ meta :: env.commits.drop j from rfl]
  rw [List.getD_eq_getElem?_getD, List.getElem?_append_right (by omega), htk]
  simp

lemma env_insert_commits_ge (env : DeltaEnv Row) (j : Nat) (meta : List DeltaLakeAction)
    (hj : j ≤ env.commits.length) (i : Nat) (hi : j ≤ i) :
    (env_insert env j meta).commits.getD (i + 1) [] = env.commits.getD i [] := by
  have htk : (env.commits.take j).length = j := by simp [List.length_take]; omega
  rw [show (env_insert env j meta).commits =
    env.commits.take j ++ meta :: env.commits.drop j from rfl]
  conv_rhs => rw [← List.take_append_drop j env.commits]
  rw [List.getD_eq_getElem?_getD, List.getD_eq_getElem?_getD,
    List.getElem?_append_right (by omega), List.getElem?_append_right (by omega), htk]
  have h1 : i + 1 - j = (i - j) + 1 := by omega
  rw [h1]
  simp

lemma env_insert_snapshot (env : DeltaEnv Row) (j : Nat) (meta : List DeltaLakeAction)
    (V : Nat) :
    (env_insert env j meta).snapshotFiles (shiftV j V) = env.snapshotFiles V := by
  by_cases h : V < j
  · rw [shiftV_of_lt h]
    simp [env_insert, h]
  · rw [shiftV_of_ge (by omega)]
    simp only [env_insert]
    rw [if_neg (by omega)]
    simp

/-- A metadata-only commit (no `data_change`, no deletion vector) is
collected without error, with `data_changed = false`. -/
lemma collect_txn_actions_meta (base_path : String) (meta : List DeltaLakeAction)
    (hmeta : ∀ a ∈ meta, action_data_change a = false ∧ has_deletion_vector a = false) :
    ∃ bm, collect_txn_actions base_path meta = .ok (bm, false) := by
  induction meta with
  | nil => exact ⟨[], rfl⟩
  | cons a rest ih =>
    have ha := hmeta a (by simp)
    obtain ⟨bm, hbm⟩ := ih (fun x hx => hmeta x (by simp [hx]))
    rcases a with ⟨p, dc, dv⟩ | ⟨p, dc⟩ | _
    · have hdv : dv.isSome = false := by simpa [has_deletion_vector] using ha.2
      have hdc : dc = false := by simpa [action_data_change] using ha.1
      exact ⟨⟨DataEventType.Delete, ensure_absolute_path_with_base p base_path⟩ :: bm,
        by simp [collect_txn_actions, hdv, hbm, hdc]⟩
    · have hdc : dc = false := by simpa [action_data_change] using ha.1
      exact ⟨⟨DataEventType.Insert, ensure_absolute_path_with_base p base_path⟩ :: bm,
        by simp [collect_txn_actions, hbm, hdc]⟩
    · exact ⟨bm, by simpa [collect_txn_actions] using hbm⟩

lemma upgrade_loop_reader_et (env : DeltaEnv Row) (s : DeltaTableReader Row) :
    (upgrade_loop env s).1.reader = s.reader ∧
    (upgrade_loop env s).1.current_event_type = s.current_event_type := by
  induction s using upgrade_loop.induct env with
  | case1 s hemp h e hcol =>
    rw [upgrade_loop, if_pos hemp, dif_pos h, hcol]
    exact ⟨rfl, rfl⟩
  | case2 s hemp h blocks dc hcol ih =>
    rw [upgrade_loop, if_pos hemp, dif_pos h, hcol]
    simpa only [dite_eq_ite] using ih
  | case3 s hemp h =>
    rw [upgrade_loop, if_pos hemp, dif_neg h]
    exact ⟨rfl, rfl⟩
  | case4 s hemp =>
    rw [upgrade_loop, if_neg hemp]
    exact ⟨rfl, rfl⟩

/-- One peek-loop iteration, having found commit `current_version + 1` with
a successful action collection. -/
lemma upgrade_loop_step (env : DeltaEnv Row) (s : DeltaTableReader Row)
    (hq : s.parquet_files_queue = []) (h : s.current_version + 1 < env.commits.length)
    (bl : List DeltaReaderAction) (dcg : Bool)
    (hc : collect_txn_actions env.base_path (env.commits.getD (s.current_version + 1) []) =
      .ok (bl, dcg)) :
    upgrade_loop env s = upgrade_loop env
      { s with last_fully_read_version := some s.current_version
               current_version := s.current_version + 1
               rows_read_within_version := 0
               parquet_files_queue := if dcg then bl else [] } := by
  conv_lhs => rw [upgrade_loop]
  rw [if_pos (by simp [hq]), dif_pos h, hc]

lemma upgrade_loop_error (env : DeltaEnv Row) (s : DeltaTableReader Row)
    (hq : s.parquet_files_queue = []) (h : s.current_version + 1 < env.commits.length)
    (e : ReadError)
    (hc : collect_txn_actions env.base_path (env.commits.getD (s.current_version + 1) []) =
      .error e) :
    upgrade_loop env s = (s, some e) := by
  rw [upgrade_loop, if_pos (by simp [hq]), dif_pos h, hc]

lemma upgrade_loop_break (env : DeltaEnv Row) (s : DeltaTableReader Row)
    (hq : s.parquet_files_queue = []) (h : ¬ (s.current_version + 1 < env.commits.length)) :
    upgrade_loop env s = (s, none) := by
  rw [upgrade_loop, if_pos (by simp [hq]), dif_neg h]

end DeltaTableReader

/-- Simulation relation between a reader on `env` and a reader on
`env_insert env j meta`: same row iterator, work queue and event type, and
versions related by the renumbering.  `rows_read_within_version` and
`last_fully_read_version` are deliberately unconstrained: they only feed
the emitted offsets, which version renumbering necessarily changes. -/
def insert_sim {Row : Type} (j : Nat) (s s' : Pathway.DeltaTableReader Row) : Prop :=
  s'.reader = s.reader ∧
  s'.parquet_files_queue = s.parquet_files_queue ∧
  s'.current_event_type = s.current_event_type ∧
  s'.current_version = shiftV j s.current_version

namespace DeltaTableReader

variable {Row : Type}

/-- The peek loop commutes with inserting a metadata-only commit at version
`j`: from related states with drained queues, both loops produce the same
error (if any) and the same work queue, and when data was found their final
versions are related by the renumbering. -/
lemma upgrade_loop_sim (env : DeltaEnv Row) (j : Nat) (meta : List DeltaLakeAction)
    (hj : j ≤ env.commits.length)
    (hmeta : ∀ a ∈ meta, action_data_change a = false ∧ has_deletion_vector a = false) :
    ∀ (n : Nat) (s s' : DeltaTableReader Row),
      env.commits.length - s.current_version = n →
      insert_sim j s s' → s.parquet_files_queue = [] →
      (upgrade_loop (env_insert env j meta) s').2 = (upgrade_loop env s).2 ∧
      (upgrade_loop (env_insert env j meta) s').1.parquet_files_queue =
        (upgrade_loop env s).1.parquet_files_queue ∧
      ((upgrade_loop env s).1.parquet_files_queue ≠ [] →
        (upgrade_loop (env_insert env j meta) s').1.current_version =
          shiftV j (upgrade_loop env s).1.current_version) := by
  intro n
  induction n using Nat.strong_induction_on with
  | _ n ih =>
    rintro s s' hgap ⟨hre, hqe, hete, hve⟩ hq
    have hq' : s'.parquet_files_queue = [] := by rw [hqe, hq]
    have hlen : (env_insert env j meta).commits.length = env.commits.length + 1 :=
      env_insert_commits_length env j meta hj
    rcases Nat.lt_trichotomy (s.current_version + 1) j with hvj | hvj | hvj
    · -- the next commit is below the insertion point
      have hve2 : s'.current_version = s.current_version := by
        rw [hve, shiftV_of_lt (by omega)]
      by_cases hv : s.current_version + 1 < env.commits.length
      · have hv' : s'.current_version + 1 < (env_insert env j meta).commits.length := by
          rw [hve2, hlen]; omega
        have hcom : (env_insert env j meta).commits.getD (s'.current_version + 1) [] =
            env.commits.getD (s.current_version + 1) [] := by
          rw [hve2]
          exact env_insert_commits_lt env j meta hj _ hvj
        rcases hcol : collect_txn_actions env.base_path
            (env.commits.getD (s.current_version + 1) []) with e | ⟨bl, dcg⟩
        · rw [upgrade_loop_error env s hq hv e hcol,
            upgrade_loop_error (env_insert env j meta) s' hq' hv' e (by rw [hcom]; exact hcol)]
          exact ⟨rfl, hqe, fun hcon => absurd hq hcon⟩
        · rw [upgrade_loop_step env s hq hv bl dcg hcol,
            upgrade_loop_step (env_insert env j meta) s' hq' hv' bl dcg
              (by rw [hcom]; exact hcol)]
          by_cases hbe : (if dcg then bl else []) = ([] : List DeltaReaderAction)
          · refine ih (env.commits.length - (s.current_version + 1)) (by omega) _ _ rfl
              ⟨hre, rfl, hete, ?_⟩ hbe
            show s'.current_version + 1 = shiftV j (s.current_version + 1)
            rw [shiftV_of_lt hvj]; omega
          · rw [upgrade_loop_queue_ne env _ hbe,
              upgrade_loop_queue_ne (env_insert env j meta) _ hbe]
            refine ⟨rfl, rfl, fun hcon => ?_⟩
            show s'.current_version + 1 = shiftV j (s.current_version + 1)
            rw [shiftV_of_lt hvj]; omega
      · -- no commit on the base table; v + 1 < j ≤ len contradicts that
        omega
    · -- the next commit is exactly the inserted one: the primed reader
      -- consumes it (no data change) and continues one version ahead
      have hve2 : s'.current_version = s.current_version := by
        rw [hve, shiftV_of_lt (by omega)]
      obtain ⟨bm, hcm⟩ := collect_txn_actions_meta env.base_path meta hmeta
      have hvm : s'.current_version + 1 < (env_insert env j meta).commits.length := by
        rw [hve2, hlen]; omega
      have hcomm : (env_insert env j meta).commits.getD (s'.current_version + 1) [] = meta := by
        rw [hve2, hvj]
        exact env_insert_commits_at env j meta hj
      rw [upgrade_loop_step (env_insert env j meta) s' hq' hvm bm false
        (by rw [hcomm]; exact hcm)]
      by_cases hv : s.current_version + 1 < env.commits.length
      · have hvm2 : s'.current_version + 1 + 1 < (env_insert env j meta).commits.length := by
          rw [hve2, hlen]; omega
        have hcom2 : (env_insert env j meta).commits.getD (s'.current_version + 1 + 1) [] =
            env.commits.getD (s.current_version + 1) [] := by
          rw [hve2]
          exact env_insert_commits_ge env j meta hj _ (by omega)
        rcases hcol : collect_txn_actions env.base_path
            (env.commits.getD (s.current_version + 1) []) with e | ⟨bl, dcg⟩
        · rw [upgrade_loop_error env s hq hv e hcol,
            upgrade_loop_error (env_insert env j meta) _ (by simp) hvm2 e
              (by rw [hcom2]; exact hcol)]
          exact ⟨rfl, by simpa using hq.symm, fun hcon => absurd hq hcon⟩
        · rw [upgrade_loop_step env s hq hv bl dcg hcol,
            upgrade_loop_step (env_insert env j meta) _ (by simp) hvm2 bl dcg
              (by rw [hcom2]; exact hcol)]
          by_cases hbe : (if dcg then bl else []) = ([] : List DeltaReaderAction)
          · refine ih (env.commits.length - (s.current_version + 1)) (by omega) _ _ rfl
              ⟨hre, rfl, hete, ?_⟩ hbe
            show s'.current_version + 1 + 1 = shiftV j (s.current_version + 1)
            rw [shiftV_of_ge (by omega)]; omega
          · rw [upgrade_loop_queue_ne env _ hbe,
              upgrade_loop_queue_ne (env_insert env j meta) _ hbe]
            refine ⟨rfl, rfl, fun hcon => ?_⟩
            show s'.current_version + 1 + 1 = shiftV j (s.current_version + 1)
            rw [shiftV_of_ge (by omega)]; omega
      · -- the base table ends right before the inserted commit
        rw [upgrade_loop_break env s hq hv,
          upgrade_loop_break (env_insert env j meta) _ (by simp) (by
            show ¬ (s'.current_version + 1 + 1 < (env_insert env j meta).commits.length)
            rw [hve2, hlen]; omega)]
        exact ⟨rfl, by simpa using hq.symm, fun hcon => absurd hq hcon⟩
    · -- the next commit is above the insertion point
      have hge : j ≤ s.current_version := by omega
      have hve2 : s'.current_version = s.current_version + 1 := by
        rw [hve, shiftV_of_ge hge]
      by_cases hv : s.current_version + 1 < env.commits.length
      · have hv' : s'.current_version + 1 < (env_insert env j meta).commits.length := by
          rw [hve2, hlen]; omega
        have hcom : (env_insert env j meta).commits.getD (s'.current_version + 1) [] =
            env.commits.getD (s.current_version + 1) [] := by
          rw [hve2]
          exact env_insert_commits_ge env j meta hj _ (by omega)
        rcases hcol : collect_txn_actions env.base_path
            (env.commits.getD (s.current_version + 1) []) with e | ⟨bl, dcg⟩
        · rw [upgrade_loop_error env s hq hv e hcol,
            upgrade_loop_error (env_insert env j meta) s' hq' hv' e (by rw [hcom]; exact hcol)]
          exact ⟨rfl, hqe, fun hcon => absurd hq hcon⟩
        · rw [upgrade_loop_step env s hq hv bl dcg hcol,
            upgrade_loop_step (env_insert env j meta) s' hq' hv' bl dcg
              (by rw [hcom]; exact hcol)]
          by_cases hbe : (if dcg then bl else []) = ([] : List DeltaReaderAction)
          · refine ih (env.commits.length - (s.current_version + 1)) (by omega) _ _ rfl
              ⟨hre, rfl, hete, ?_⟩ hbe
            show s'.current_version + 1 = shiftV j (s.current_version + 1)
            rw [shiftV_of_ge (by omega)]; omega
          · rw [upgrade_loop_queue_ne env _ hbe,
              upgrade_loop_queue_ne (env_insert env j meta) _ hbe]
            refine ⟨rfl, rfl, fun hcon => ?_⟩
            show s'.current_version + 1 = shiftV j (s.current_version + 1)
            rw [shiftV_of_ge (by omega)]; omega
      · rw [upgrade_loop_break env s hq hv,
          upgrade_loop_break (env_insert env j meta) s' hq' (by
            show ¬ (s'.current_version + 1 < (env_insert env j meta).commits.length)
            rw [hve2, hlen]; omega)]
        exact ⟨rfl, hqe, fun hcon => absurd hq hcon⟩

/-- `upgrade_table_version` commutes with the insertion, from any pair of
related states. -/
lemma upgrade_table_version_sim (env : DeltaEnv Row) (j : Nat) (meta : List DeltaLakeAction)
    (hj : j ≤ env.commits.length)
    (hmeta : ∀ a ∈ meta, action_data_change a = false ∧ has_deletion_vector a = false)
    (s s' : DeltaTableReader Row) (hsim : insert_sim j s s') :
    (upgrade_table_version (env_insert env j meta) s').2 =
      (upgrade_table_version env s).2 ∧
    (upgrade_table_version (env_insert env j meta) s').1.parquet_files_queue =
      (upgrade_table_version env s).1.parquet_files_queue ∧
    ((upgrade_table_version env s).1.parquet_files_queue ≠ [] →
      (upgrade_table_version (env_insert env j meta) s').1.current_version =
        shiftV j (upgrade_table_version env s).1.current_version) := by
  obtain ⟨hre, hqe, hete, hve⟩ := hsim
  exact upgrade_loop_sim env j meta hj hmeta _ { s with parquet_files_queue := [] }
    { s' with parquet_files_queue := [] } rfl ⟨hre, rfl, hete, hve⟩ rfl

lemma upgrade_table_version_reader_et (env : DeltaEnv Row) (s : DeltaTableReader Row) :
    (upgrade_table_version env s).1.reader = s.reader ∧
    (upgrade_table_version env s).1.current_event_type = s.current_event_type :=
  upgrade_loop_reader_et env { s with parquet_files_queue := [] }

lemma pull_loop_sim (env : DeltaEnv Row) (j : Nat) (meta : List DeltaLakeAction)
    (q : List DeltaReaderAction) :
    ∀ (s s' : DeltaTableReader Row), s'.reader = s.reader →
      s'.current_event_type = s.current_event_type →
      s'.current_version = shiftV j s.current_version →
    (pull_loop (env_insert env j meta) s' q).1 = (pull_loop env s q).1 ∧
    insert_sim j (pull_loop env s q).2 (pull_loop (env_insert env j meta) s' q).2 := by
  induction q with
  | nil =>
    intro s s' hre hete hve
    exact ⟨rfl, hre, rfl, hete, hve⟩
  | cons a rest ih =>
    intro s s' hre hete hve
    have hfr : (env_insert env j meta).fileRows = env.fileRows := rfl
    cases hr : env.fileRows a.path with
    | nil =>
      rw [pull_loop, pull_loop, hfr, hr]
      exact ih _ _ rfl rfl hve
    | cons r rs =>
      rw [pull_loop, pull_loop, hfr, hr]
      exact ⟨rfl, rfl, rfl, rfl, hve⟩

lemma pull_from_queue_sim (env : DeltaEnv Row) (j : Nat) (meta : List DeltaLakeAction)
    (s s' : DeltaTableReader Row) (hsim : insert_sim j s s') :
    (pull_from_queue (env_insert env j meta) s').1 = (pull_from_queue env s).1 ∧
    insert_sim j (pull_from_queue env s).2 (pull_from_queue (env_insert env j meta) s').2 := by
  obtain ⟨hre, hqe, hete, hve⟩ := hsim
  unfold pull_from_queue
  rw [hqe]
  exact pull_loop_sim env j meta s.parquet_files_queue s s' hre hete hve

lemma read_row_from_files_sim (env : DeltaEnv Row) (j : Nat) (meta : List DeltaLakeAction)
    (hj : j ≤ env.commits.length)
    (hmeta : ∀ a ∈ meta, action_data_change a = false ∧ has_deletion_vector a = false) :
    ∀ (s s' : DeltaTableReader Row), insert_sim j s s' →
    (read_row_from_files (env_insert env j meta) s').2 = (read_row_from_files env s).2 ∧
    (∀ t r, read_row_from_files env s = (t, Except.ok r) →
      insert_sim j t (read_row_from_files (env_insert env j meta) s').1) := by
  have key : ∀ (n : Nat) (s s' : DeltaTableReader Row),
      env.commits.length - s.current_version = n → insert_sim j s s' →
      (read_row_from_files (env_insert env j meta) s').2 = (read_row_from_files env s).2 ∧
      (∀ t r, read_row_from_files env s = (t, Except.ok r) →
        insert_sim j t (read_row_from_files (env_insert env j meta) s').1) := by
    intro n
    induction n using Nat.strong_induction_on with
    | _ n ih =>
      intro s s' hgap hsim
      obtain ⟨hp1, hp2⟩ := pull_from_queue_sim env j meta s s' hsim
      rw [read_row_from_files, read_row_from_files, hp1]
      cases hpc : (pull_from_queue env s).1 with
      | some r0 =>
        dsimp only
        refine ⟨rfl, ?_⟩
        intro t r h
        have h1 := congrArg Prod.fst h
        dsimp only at h1
        rw [← h1]
        exact hp2
      | none =>
        dsimp only
        obtain ⟨hu1, hu2, hu3⟩ := upgrade_table_version_sim env j meta hj hmeta _ _ hp2
        rw [hu1]
        cases huc : (upgrade_table_version env (pull_from_queue env s).2).2 with
        | some e =>
          dsimp only
          refine ⟨rfl, ?_⟩
          intro t r h
          exact absurd (congrArg Prod.snd h) (by simp)
        | none =>
          dsimp only
          by_cases hqc :
            (upgrade_table_version env (pull_from_queue env s).2).1.parquet_files_queue.isEmpty
          · rw [dif_pos hqc, dif_pos (by rw [hu2]; exact hqc)]
            refine ⟨rfl, ?_⟩
            intro t r h
            exact absurd (congrArg Prod.snd h) (by simp)
          · rw [dif_neg hqc, dif_neg (by rw [hu2]; exact hqc)]
            have hqne : (upgrade_table_version env
                (pull_from_queue env s).2).1.parquet_files_queue ≠ [] := by
              simpa [List.isEmpty_iff] using hqc
            have hsim2 : insert_sim j
                (upgrade_table_version env (pull_from_queue env s).2).1
                (upgrade_table_version (env_insert env j meta)
                  (pull_from_queue (env_insert env j meta) s').2).1 := by
              obtain ⟨hq1, hq2, hq3, hq4⟩ := hp2
              obtain ⟨hr1, he1⟩ :=
                upgrade_table_version_reader_et env (pull_from_queue env s).2
              obtain ⟨hr2, he2⟩ :=
                upgrade_table_version_reader_et (env_insert env j meta)
                  (pull_from_queue (env_insert env j meta) s').2
              exact ⟨by rw [hr1, hr2, hq1], hu2, by rw [he1, he2, hq3], hu3 hqne⟩
            have hgaplt : env.commits.length -
                (upgrade_table_version env (pull_from_queue env s).2).1.current_version < n := by
              have hg := upgrade_table_version_gap env (pull_from_queue env s).2
                (by simpa [List.isEmpty_iff] using hqc)
              have hpv := (pull_from_queue_preserves env s).1
              omega
            exact ih _ hgaplt _ _ rfl hsim2
  exact fun s s' hsim => key _ s s' rfl hsim

lemma read_next_row_native_sim (env : DeltaEnv Row) (j : Nat) (meta : List DeltaLakeAction)
    (hj : j ≤ env.commits.length)
    (hmeta : ∀ a ∈ meta, action_data_change a = false ∧ has_deletion_vector a = false)
    (s s' : DeltaTableReader Row) (hsim : insert_sim j s s') :
    (read_next_row_native (env_insert env j meta) s').2 = (read_next_row_native env s).2 ∧
    (∀ t r, read_next_row_native env s = (t, Except.ok r) →
      insert_sim j t (read_next_row_native (env_insert env j meta) s').1) := by
  obtain ⟨hre, hqe, hete, hve⟩ := hsim
  unfold read_next_row_native
  rw [hre]
  cases hrd : s.reader with
  | some rows =>
    cases rows with
    | cons row rest =>
      dsimp only
      refine ⟨rfl, ?_⟩
      intro t r h
      have h1 := congrArg Prod.fst h
      dsimp only at h1
      rw [← h1]
      exact ⟨rfl, hqe, hete, hve⟩
    | nil =>
      dsimp only
      exact read_row_from_files_sim env j meta hj hmeta _ _ ⟨rfl, hqe, hete, hve⟩
  | none =>
    dsimp only
    exact read_row_from_files_sim env j meta hj hmeta s s' ⟨hre, hqe, hete, hve⟩

lemma read_sim (env : DeltaEnv Row) (j : Nat) (meta : List DeltaLakeAction)
    (hj : j ≤ env.commits.length)
    (hmeta : ∀ a ∈ meta, action_data_change a = false ∧ has_deletion_vector a = false)
    (s s' : DeltaTableReader Row) (hsim : insert_sim j s s') :
    (∃ e, (read env s).2 = Except.error e ∧
      (read (env_insert env j meta) s').2 = Except.error e) ∨
    ((read env s).2 = Except.ok ReadResult.Finished ∧
      (read (env_insert env j meta) s').2 = Except.ok ReadResult.Finished) ∨
    (∃ et row o o', (read env s).2 = Except.ok (ReadResult.Data et row o) ∧
      (read (env_insert env j meta) s').2 = Except.ok (ReadResult.Data et row o') ∧
      insert_sim j (read env s).1 (read (env_insert env j meta) s').1) := by
  obtain ⟨hn1, hn2⟩ := read_next_row_native_sim env j meta hj hmeta s s' hsim
  unfold read
  rcases hres : read_next_row_native env s with ⟨s1, res⟩
  rcases hres' : read_next_row_native (env_insert env j meta) s' with ⟨s1', res'⟩
  rw [hres, hres'] at hn1
  dsimp only at hn1
  subst hn1
  cases res' with
  | ok row =>
    obtain ⟨hr1, hq1, he1, hv1⟩ := by
      have := hn2 s1 row hres
      rw [hres'] at this
      exact this
    right; right
    dsimp only
    refine ⟨s1.current_event_type, row,
      OffsetValue.DeltaTablePosition s1.current_version (s1.rows_read_within_version + 1)
        s1.last_fully_read_version,
      OffsetValue.DeltaTablePosition s1'.current_version (s1'.rows_read_within_version + 1)
        s1'.last_fully_read_version, rfl, ?_, ?_⟩
    · rw [he1]
    · exact ⟨hr1, hq1, he1, hv1⟩
  | error e =>
    cases e with
    | NoObjectsToRead => right; left; exact ⟨rfl, rfl⟩
    | DeltaDeletionVectorsNotSupported => left; exact ⟨_, rfl, rfl⟩
    | Parquet => left; exact ⟨_, rfl, rfl⟩
    | Io => left; exact ⟨_, rfl, rfl⟩

lemma run_drain_sim (env : DeltaEnv Row) (j : Nat) (meta : List DeltaLakeAction)
    (hj : j ≤ env.commits.length)
    (hmeta : ∀ a ∈ meta, action_data_change a = false ∧ has_deletion_vector a = false) :
    ∀ (fuel : Nat) (s s' : DeltaTableReader Row), insert_sim j s s' →
    data_events (run_drain (env_insert env j meta) fuel s').1 =
      data_events (run_drain env fuel s).1 := by
  intro fuel
  induction fuel with
  | zero => intro s s' _; rfl
  | succ fuel ih =>
    intro s s' hsim
    rw [run_drain, run_drain]
    rcases hr : read env s with ⟨s1, res⟩
    rcases hr' : read (env_insert env j meta) s' with ⟨s1', res'⟩
    rcases read_sim env j meta hj hmeta s s' hsim with
      ⟨e, h1, h2⟩ | ⟨h1, h2⟩ | ⟨et, row, o, o', h1, h2, hsim2⟩ <;>
      rw [hr] at h1 <;> rw [hr'] at h2 <;> dsimp only at h1 h2 <;> subst h1 <;> subst h2
    · rfl
    · rfl
    · dsimp only
      rw [show data_events (ReadResult.Data et row o' :: (run_drain (env_insert env j meta) fuel s1').1) =
          (et, row) :: data_events (run_drain (env_insert env j meta) fuel s1').1 from rfl,
        show data_events (ReadResult.Data et row o :: (run_drain env fuel s1).1) =
          (et, row) :: data_events (run_drain env fuel s1).1 from rfl]
      rw [hr, hr'] at hsim2
      exact congrArg _ (ih s1 s1' hsim2)

/-- The freshly opened readers of a table and of the same table with an
inserted commit are related. -/
lemma new_sim (env : DeltaEnv Row) (j : Nat) (meta : List DeltaLakeAction) (V : Nat) :
    insert_sim j (new env V) (new (env_insert env j meta) (shiftV j V)) := by
  refine ⟨rfl, ?_, rfl, rfl⟩
  show get_reader_actions (env_insert env j meta) (shiftV j V) = get_reader_actions env V
  unfold get_reader_actions
  rw [env_insert_snapshot]
  rfl

end DeltaTableReader

/-- A commit with a dv-free `Remove` whose `data_change` is false: it has no
action with `data_change = true`, yet its presence is observable. -/
def meta_c4 : List DeltaLakeAction := [DeltaLakeAction.Remove "g" false (some ())]

/-- A table created empty whose commit 1 adds one file with one row. -/
def env_c4 : DeltaEnv Nat :=
  { base_path := ""
    commits := [[], [DeltaLakeAction.Add "f" true]]
    snapshotFiles := fun _ => []
    fileRows := fun p => if p = "f" then [7] else [] }

/-- C4, counterexample to the claim as stated: inserting the commit
`meta_c4` — in which no Add or Remove action has `data_change = true` — at
version 1 of `env_c4` changes the emitted stream: the base table's reader
emits one Insert, the extended table's reader emits nothing and fails with
`DeltaDeletionVectorsNotSupported`, because a `Remove` with a deletion
vector is rejected before its `data_change` flag is ever consulted. -/
theorem c4_counterexample :
    ((env_insert env_c4 1 meta_c4).commits.getD 1 []).all
      (fun a => !action_data_change a) = true ∧
    DeltaTableReader.data_events
      (DeltaTableReader.run_drain env_c4 5 (DeltaTableReader.new env_c4 0)).1 =
      [(DataEventType.Insert, 7)] ∧
    DeltaTableReader.data_events
      (DeltaTableReader.run_drain (env_insert env_c4 1 meta_c4) 5
        (DeltaTableReader.new (env_insert env_c4 1 meta_c4) 0)).1 = [] ∧
    (DeltaTableReader.run_drain (env_insert env_c4 1 meta_c4) 5
      (DeltaTableReader.new (env_insert env_c4 1 meta_c4) 0)).2.2 =
      some ReadError.DeltaDeletionVectorsNotSupported := by
  refine ⟨by decide, ?_, ?_, ?_⟩ <;>
    simp [env_c4, meta_c4, env_insert, DeltaTableReader.run_drain, DeltaTableReader.read,
      DeltaTableReader.new, DeltaTableReader.get_reader_actions,
      ensure_absolute_path_empty_base, DeltaTableReader.data_events,
      DeltaTableReader.read_next_row_native, DeltaTableReader.read_row_from_files,
      DeltaTableReader.pull_from_queue, DeltaTableReader.pull_loop,
      DeltaTableReader.upgrade_table_version, DeltaTableReader.upgrade_loop,
      DeltaTableReader.collect_txn_actions]

/-- C4 (amended).  A commit in which no `Add` or `Remove` action has
`data_change = true` **and no `Remove` action carries a deletion vector**
is invisible: inserting such a commit `meta` at any version `j` of the
table leaves the stream of `Data` events (event types and row values) of a
freshly opened, fully drained reader unchanged, while `current_version`
still advances past the inserted commit's version (Advance, arriving just
below it, consumes it — discarding the collected file list — and keeps
peeking, ending at version ≥ j). -/
theorem c4_metadata_only_commits_invisible (Row : Type) (env : DeltaEnv Row)
    (j V fuel : Nat) (meta : List DeltaLakeAction)
    (hj : j ≤ env.commits.length)
    (hmeta : ∀ a ∈ meta, action_data_change a = false ∧ has_deletion_vector a = false) :
    DeltaTableReader.data_events
      (DeltaTableReader.run_drain (env_insert env j meta) fuel
        (DeltaTableReader.new (env_insert env j meta) (shiftV j V))).1 =
      DeltaTableReader.data_events
        (DeltaTableReader.run_drain env fuel (DeltaTableReader.new env V)).1 ∧
    ∀ s' : DeltaTableReader Row, s'.current_version + 1 = j →
      j ≤ (DeltaTableReader.upgrade_table_version (env_insert env j meta) s').1.current_version := by
  constructor
  · exact DeltaTableReader.run_drain_sim env j meta hj hmeta fuel _ _
      (DeltaTableReader.new_sim env j meta V)
  · intro s' hs'
    obtain ⟨bm, hcm⟩ := DeltaTableReader.collect_txn_actions_meta env.base_path meta hmeta
    have hlen : (env_insert env j meta).commits.length = env.commits.length + 1 :=
      DeltaTableReader.env_insert_commits_length env j meta hj
    have hv : s'.current_version + 1 < (env_insert env j meta).commits.length := by
      rw [hlen]; omega
    have hcomm : (env_insert env j meta).commits.getD (s'.current_version + 1) [] = meta := by
      rw [hs']
      exact DeltaTableReader.env_insert_commits_at env j meta hj
    unfold DeltaTableReader.upgrade_table_version
    rw [DeltaTableReader.upgrade_loop_step (env_insert env j meta)
      { s' with parquet_files_queue := [] } rfl hv bm false (by rw [hcomm]; exact hcm)]
    refine le_trans ?_ (DeltaTableReader.upgrade_loop_version_le (env_insert env j meta) _)
    show j ≤ s'.current_version + 1
    omega


/-- Witness for C4: inserting the genuinely metadata-only commit
`[Other]` at version 1 of `env_c4` leaves the drained reader's event
stream unchanged, and Advance carries `current_version` past version 1. -/
theorem c4_metadata_only_commits_invisible_witness :
    1 ≤ env_c4.commits.length ∧
    (∀ a ∈ [DeltaLakeAction.Other],
      action_data_change a = false ∧ has_deletion_vector a = false) ∧
    DeltaTableReader.data_events
      (DeltaTableReader.run_drain (env_insert env_c4 1 [DeltaLakeAction.Other]) 5
        (DeltaTableReader.new (env_insert env_c4 1 [DeltaLakeAction.Other]) (shiftV 1 0))).1 =
      DeltaTableReader.data_events
        (DeltaTableReader.run_drain env_c4 5 (DeltaTableReader.new env_c4 0)).1 ∧
    1 ≤ (DeltaTableReader.upgrade_table_version (env_insert env_c4 1 [DeltaLakeAction.Other])
      (DeltaTableReader.new (env_insert env_c4 1 [DeltaLakeAction.Other]) 0)).1.current_version :=
  ⟨by decide, by decide,
    (c4_metadata_only_commits_invisible Nat env_c4 1 0 5 [DeltaLakeAction.Other]
      (by decide) (by decide)).1,
    (c4_metadata_only_commits_invisible Nat env_c4 1 0 5 [DeltaLakeAction.Other]
      (by decide) (by decide)).2
      (DeltaTableReader.new (env_insert env_c4 1 [DeltaLakeAction.Other]) 0) rfl⟩

end Pathway
